import Mathlib

/-!
Verification of the d3tools core: calendar/timestep model, template-string
pattern resolver (forward substitution and inverse date/tag extraction) and
the dataset resolution engine.

The Python sources are shallowly embedded: `datetime.datetime` values become
the `D3.DateTime` structure over unbounded integers (proleptic Gregorian
calendar, which is what Python's `datetime` implements inside its supported
year range); `timedelta` arithmetic becomes exact integer-second arithmetic;
dictionaries become association lists; regular-expression scanning is
implemented directly as character-list scanners with the same matching
semantics (leftmost match, greedy captures with backtracking).
-/

namespace D3

/-! ## Calendar core (embedding of Python `datetime`)

`Year.is_leap` in `fixed_num_timestep.py`:
`year % 4 == 0 and (year % 100 != 0 or year % 400 == 0)`.
Lean's `%` on `Int` (`Int.emod`) agrees with Python `%` for positive moduli. -/

def isLeap (y : Int) : Bool := y % 4 == 0 && (y % 100 != 0 || y % 400 == 0)

def daysInYear (y : Int) : Int := if isLeap y then 366 else 365

/-- Days in month `m`, parameterized by leapness of the year. -/
def daysInMonthL (leap : Bool) (m : Int) : Int :=
  if m = 2 then (if leap then 29 else 28)
  else if m = 4 ∨ m = 6 ∨ m = 9 ∨ m = 11 then 30
  else 31

def daysInMonth (y m : Int) : Int := daysInMonthL (isLeap y) m

/-- Cumulative days before month `m` in a non-leap year. -/
def cumN : Int → Int
  | 1 => 0 | 2 => 31 | 3 => 59 | 4 => 90 | 5 => 120 | 6 => 151
  | 7 => 181 | 8 => 212 | 9 => 243 | 10 => 273 | 11 => 304 | 12 => 334
  | _ => 0

/-- Cumulative days before month `m`, leap-aware. -/
def cumDaysL (leap : Bool) (m : Int) : Int :=
  cumN m + (if leap ∧ 3 ≤ m then 1 else 0)

/-- Day of year (`tm_yday`) of a `(year, month, day)` date. -/
def doyOf (y m d : Int) : Int := cumDaysL (isLeap y) m + d

/-- Inverse of `doyOf`: month and day-of-month from a day of year. -/
def dateOfDoyL (leap : Bool) (n : Int) : Int × Int :=
  if n ≤ cumDaysL leap 2 then (1, n)
  else if n ≤ cumDaysL leap 3 then (2, n - cumDaysL leap 2)
  else if n ≤ cumDaysL leap 4 then (3, n - cumDaysL leap 3)
  else if n ≤ cumDaysL leap 5 then (4, n - cumDaysL leap 4)
  else if n ≤ cumDaysL leap 6 then (5, n - cumDaysL leap 5)
  else if n ≤ cumDaysL leap 7 then (6, n - cumDaysL leap 6)
  else if n ≤ cumDaysL leap 8 then (7, n - cumDaysL leap 7)
  else if n ≤ cumDaysL leap 9 then (8, n - cumDaysL leap 8)
  else if n ≤ cumDaysL leap 10 then (9, n - cumDaysL leap 9)
  else if n ≤ cumDaysL leap 11 then (10, n - cumDaysL leap 10)
  else if n ≤ cumDaysL leap 12 then (11, n - cumDaysL leap 11)
  else (12, n - cumDaysL leap 12)

/-- Embedding of Python `datetime.datetime` (microseconds are never used by
the code under verification). -/
structure DateTime where
  year : Int
  month : Int
  day : Int
  hour : Int := 0
  minute : Int := 0
  second : Int := 0
deriving DecidableEq, Repr

namespace DateTime

def valid (t : DateTime) : Prop :=
  1 ≤ t.month ∧ t.month ≤ 12 ∧ 1 ≤ t.day ∧ t.day ≤ daysInMonth t.year t.month ∧
  0 ≤ t.hour ∧ t.hour < 24 ∧ 0 ≤ t.minute ∧ t.minute < 60 ∧
  0 ≤ t.second ∧ t.second < 60

instance (t : DateTime) : Decidable t.valid := by unfold valid; infer_instance

def secOfDay (t : DateTime) : Int := 3600 * t.hour + 60 * t.minute + t.second

def doy (t : DateTime) : Int := doyOf t.year t.month t.day

end DateTime

/-- Days in years `1..y` of the proleptic Gregorian calendar (extended to all
integers by floor division, which `Int./` is for positive divisors). -/
def daysUpTo (y : Int) : Int := 365 * y + y / 4 - y / 100 + y / 400

/-- Absolute day number of a date (day 0 = January 1 of year 1). -/
def DateTime.absDay (t : DateTime) : Int := daysUpTo (t.year - 1) + t.doy - 1

/-- Absolute second count of an instant on the timeline. Python `datetime`
comparison and subtraction coincide with comparison and subtraction of
`absSec` for valid datetimes. -/
def DateTime.absSec (t : DateTime) : Int := 86400 * t.absDay + t.secOfDay

def secInYear (y : Int) : Int := 86400 * daysInYear y

/-- Normalize a (year, second-of-year) pair upward across year boundaries. -/
def normUp (y s : Int) : Int × Int :=
  if h : secInYear y ≤ s then normUp (y + 1) (s - secInYear y) else (y, s)
termination_by s.toNat
decreasing_by
  have h1 : (365:Int) ≤ daysInYear y := by unfold daysInYear; split <;> omega
  have h2 : (365 * 86400 : Int) ≤ secInYear y := by unfold secInYear; omega
  omega

/-- Normalize a (year, second-of-year) pair downward across year boundaries. -/
def normDown (y s : Int) : Int × Int :=
  if h : s < 0 then normDown (y - 1) (s + secInYear (y - 1)) else (y, s)
termination_by (-s).toNat
decreasing_by
  have h1 : (365:Int) ≤ daysInYear (y-1) := by unfold daysInYear; split <;> omega
  have h2 : (365 * 86400 : Int) ≤ secInYear (y-1) := by unfold secInYear; omega
  omega

def yearNorm (y s : Int) : Int × Int :=
  let p := normUp y s
  normDown p.1 p.2

/-- Rebuild a datetime from a year and a normalized second-of-year. -/
def ofYearSec (y s : Int) : DateTime :=
  let md := dateOfDoyL (isLeap y) (s / 86400 + 1)
  let r := s % 86400
  ⟨y, md.1, md.2, r / 3600, r % 3600 / 60, r % 60⟩

/-- Embedding of `datetime + timedelta(seconds = n)` (exact arithmetic over
unbounded years). -/
def DateTime.addSeconds (t : DateTime) (n : Int) : DateTime :=
  let p := yearNorm t.year (86400 * (t.doy - 1) + t.secOfDay + n)
  ofYearSec p.1 p.2

/-- Embedding of `datetime - datetime` as a signed number of seconds
(`timedelta` holds an exact signed duration). -/
def dtSub (a b : DateTime) : Int := a.absSec - b.absSec

/-- `timedelta.days` is the floor of the duration in days. -/
def tdDays (sec : Int) : Int := sec / 86400

/-- `timedelta.seconds` is the non-negative seconds-within-day component. -/
def tdSeconds (sec : Int) : Int := sec % 86400

/-- Absolute second count of a (year, second-of-year) pair. -/
def absYS (y s : Int) : Int := 86400 * daysUpTo (y - 1) + s

/-! ## Timestep arithmetic (Calendar Engine)

`FixedNTimeStep.__add__` (`fixed_num_timestep.py`) and `FixedDOYTimeStep.__add__`
(`fixed_doy_timestep.py`) contain the same two `while` loops:

    step = self.step + n
    while step > self.n_steps: step -= self.n_steps; year += 1
    while step < 1: step += self.n_steps; year -= 1

The loops only terminate for `n_steps ≥ 1` (true of every registered family:
`Year` 1, `Month` 12, `Dekad` 36, `ViirsModisTimeStep` 46), so the embedding
guards the recursion on `1 ≤ nSteps`. -/

def addLoopUp (nSteps year step : Int) : Int × Int :=
  if h : 1 ≤ nSteps ∧ nSteps < step then addLoopUp nSteps (year + 1) (step - nSteps)
  else (year, step)
termination_by step.toNat
decreasing_by omega

def addLoopDown (nSteps year step : Int) : Int × Int :=
  if h : 1 ≤ nSteps ∧ step < 1 then addLoopDown nSteps (year - 1) (step + nSteps)
  else (year, step)
termination_by (1 - step).toNat
decreasing_by omega

/-- `FixedNTimeStep.__add__` / `FixedDOYTimeStep.__add__` on the `(year, step)`
identity of a timestep. -/
def fixedNAdd (nSteps : Int) (ts : Int × Int) (n : Int) : Int × Int :=
  let p := addLoopUp nSteps ts.1 (ts.2 + n)
  addLoopDown nSteps p.1 p.2

/-- `TimeStep.__sub__`: `self + (-n)`. -/
def fixedNSub (nSteps : Int) (ts : Int × Int) (n : Int) : Int × Int :=
  fixedNAdd nSteps ts (-n)

/-- `Day` timestep (`fixed_len_timestep.py`): `step` is the day of year. -/
structure DayTS where
  year : Int
  step : Int
deriving DecidableEq, Repr

namespace DayTS

/-- `Day.get_start`: `datetime(year, 1, 1) + timedelta(days = step - 1)`. -/
def startDt (ts : DayTS) : DateTime :=
  DateTime.addSeconds ⟨ts.year, 1, 1, 0, 0, 0⟩ ((ts.step - 1) * 86400)

/-- `Day.from_date`: year of the date and `tm_yday`. -/
def fromDate (d : DateTime) : DayTS := ⟨d.year, d.doy⟩

/-- `FixedLenTimeStep.__add__` for `Day` (`length = 1`):
`from_date(self.start + timedelta(days = n))`. -/
def add (ts : DayTS) (n : Int) : DayTS :=
  fromDate (DateTime.addSeconds ts.startDt (n * 86400))

/-- `TimeStep.__sub__`: `self + (-n)`. -/
def sub (ts : DayTS) (n : Int) : DayTS := ts.add (-n)

/-- A valid `(year, step)` pair: the day of year exists in that year. -/
def validTS (ts : DayTS) : Prop := 1 ≤ ts.step ∧ ts.step ≤ daysInYear ts.year

instance (ts : DayTS) : Decidable ts.validTS := by unfold validTS; infer_instance

end DayTS

/-! ### Binary64 arithmetic of `Hour.__add__`

`Hour.length = 1/24` is a Python float, so `Hour.__add__` computes
`delta_days = n * (1/24)` in IEEE-754 binary64 and hands the result to
`datetime.timedelta(days=...)`.  The model below carries the exact dyadic
value of every intermediate double (`m * 2^e`; all magnitudes stay far
inside the normal range, so only the 53-bit significand rounding matters)
and reproduces CPython's float-`timedelta` normalization. -/

/-- An exact dyadic rational `m * 2^e` (every binary64 value is one). -/
structure Dyadic where
  m : Int
  e : Int
deriving DecidableEq, Repr

/-- Bit length of a natural number (fuel-bounded structural recursion; every
magnitude in this development is far below `2^300`). -/
def bitsFuel : Nat → Nat → Nat
  | 0, _ => 0
  | f + 1, m => if m = 0 then 0 else bitsFuel f (m / 2) + 1

def nbits (m : Nat) : Nat := bitsFuel 300 m

/-- `m / 2^s` rounded to the nearest integer, ties to even (`s ≥ 1`).  With
floor division the remainder is in `[0, 2^s)`, so the comparison against
`2^(s-1)` is the usual round-half-even, for negative `m` as well. -/
def rheShift (m : Int) (s : Nat) : Int :=
  let q := m / 2 ^ s
  let r := m % 2 ^ s
  let half := (2 : Int) ^ (s - 1)
  if half < r then q + 1
  else if r < half then q
  else if q % 2 = 0 then q else q + 1

/-- Round an exact dyadic to 53 significant bits: IEEE-754 binary64
round-to-nearest-even (the exponent range is never exercised here). -/
def round53 (x : Dyadic) : Dyadic :=
  let b := nbits x.m.natAbs
  if b ≤ 53 then x
  else ⟨rheShift x.m (b - 53), x.e + (b - 53)⟩

/-- Binary64 multiplication: the exact product, rounded once. -/
def flMul (x y : Dyadic) : Dyadic := round53 ⟨x.m * y.m, x.e + y.e⟩

/-- The integral part of a double, truncated toward zero (= `math.modf`). -/
def dyTrunc (x : Dyadic) : Int :=
  if 0 ≤ x.e then x.m * 2 ^ x.e.toNat
  else if 0 ≤ x.m then x.m / 2 ^ (-x.e).toNat
  else -((-x.m) / 2 ^ (-x.e).toNat)

/-- The fractional part of a double (`math.modf`; exact, same sign as `x`). -/
def dyFrac (x : Dyadic) : Dyadic :=
  if 0 ≤ x.e then ⟨0, 0⟩
  else ⟨x.m - dyTrunc x * 2 ^ (-x.e).toNat, x.e⟩

/-- Python `round()` on a double: nearest integer, ties to even. -/
def dyRoundHalfEven (x : Dyadic) : Int :=
  if 0 ≤ x.e then x.m * 2 ^ x.e.toNat
  else rheShift x.m (-x.e).toNat

/-- `Hour.length = 1/24` as a binary64: the correctly rounded value
`6004799503160661 * 2^-57` (`(1/24).as_integer_ratio()` in CPython), a hair
BELOW `1/24` — the source of the drift. -/
def floatOneOver24 : Dyadic := ⟨6004799503160661, -57⟩

/-- Total microseconds of `datetime.timedelta(days = x)` for a float `x`:
CPython splits `x` with `modf`, multiplies the day fraction by `86400.0`,
splits again, scales the remaining fraction by `1e6` and rounds it to whole
microseconds (ties to even); the pieces are then carried into one exact
microsecond count. -/
def timedeltaUsOfDays (x : Dyadic) : Int :=
  let days := dyTrunc x
  let r1 := flMul (dyFrac x) ⟨86400, 0⟩
  let secs := dyTrunc r1
  let us := dyRoundHalfEven (flMul (dyFrac r1) ⟨1000000, 0⟩)
  (days * 86400 + secs) * 1000000 + us

/-- The jump of `Hour.__add__` in microseconds: `timedelta(days = n * (1/24))`
with both operations in binary64 (`n` converts to float exactly for every
`|n| < 2^53`, far beyond any exercised input). -/
def hourFloatDeltaUs (n : Int) : Int :=
  timedeltaUsOfDays (flMul ⟨n, 0⟩ floatOneOver24)

/-- `Hour` timestep (`fixed_len_timestep.py`): `step` is the hour of year. -/
structure HourTS where
  year : Int
  step : Int
deriving DecidableEq, Repr

namespace HourTS

/-- `Hour.get_start`: `datetime(year, 1, 1) + timedelta(hours = step - 1)`. -/
def startDt (ts : HourTS) : DateTime :=
  DateTime.addSeconds ⟨ts.year, 1, 1, 0, 0, 0⟩ ((ts.step - 1) * 3600)

/-- `Hour.get_step_from_date`: `(tm_yday - 1) * 24 + hour + 1`. -/
def fromDate (d : DateTime) : HourTS := ⟨d.year, (d.doy - 1) * 24 + d.hour + 1⟩

/-- `FixedLenTimeStep.__add__` for `Hour`: `delta_days = n * (1/24)` in
binary64, then `start + timedelta(days = delta_days)` and `from_date`.  The
step is read from the `(year, tm_yday, hour)` fields of the
microsecond-precision result; those fields are the ones of the instant
truncated to whole seconds, i.e. of `start` shifted by the floor of the
microsecond jump (`start`'s own microseconds are zero). -/
def add (ts : HourTS) (n : Int) : HourTS :=
  fromDate (DateTime.addSeconds ts.startDt (hourFloatDeltaUs n / 1000000))

/-- The exact-hour idealization `start + n * 3600 s`: what `Hour.__add__`
computes whenever the float pipeline lands exactly on the hour boundary. -/
def addSec (ts : HourTS) (n : Int) : HourTS :=
  fromDate (DateTime.addSeconds ts.startDt (n * 3600))

/-- `TimeStep.__sub__`: `self + (-n)`. -/
def sub (ts : HourTS) (n : Int) : HourTS := ts.add (-n)

/-- A valid `(year, step)` pair: the hour of year exists in that year. -/
def validTS (ts : HourTS) : Prop := 1 ≤ ts.step ∧ ts.step ≤ 24 * daysInYear ts.year

instance (ts : HourTS) : Decidable ts.validTS := by unfold validTS; infer_instance

end HourTS

/-! ### Fixed-count families: start/end instants (`fixed_num_timestep.py`) -/

/-- `Dekad.get_start`: month `(step-1)//3 + 1`, day `((step-1) % 3) * 10 + 1`. -/
def dekadStart (year step : Int) : DateTime :=
  ⟨year, (step - 1) / 3 + 1, (step - 1) % 3 * 10 + 1, 0, 0, 0⟩

/-- `Dekad.get_end`: third dekad of the month runs to the end of the month
(`datetime(next_month_year, next_month_month, 1) - timedelta(days=1)`);
otherwise `start + timedelta(days=9)`. -/
def dekadEnd (year step : Int) : DateTime :=
  let m := (step - 1) / 3 + 1
  if (step - 1) % 3 + 1 = 3 then
    let nm := if m < 12 then m + 1 else 1
    let ny := if m < 12 then year else year + 1
    DateTime.addSeconds ⟨ny, nm, 1, 0, 0, 0⟩ (-86400)
  else
    DateTime.addSeconds (dekadStart year step) (9 * 86400)

/-- `Month.get_start`. -/
def monthStart (year m : Int) : DateTime := ⟨year, m, 1, 0, 0, 0⟩

/-- `Month.get_end`: first day of the next month minus one day. -/
def monthEnd (year m : Int) : DateTime :=
  let nm := if m < 12 then m + 1 else 1
  let ny := if m = 12 then year + 1 else year
  DateTime.addSeconds ⟨ny, nm, 1, 0, 0, 0⟩ (-86400)

/-- `Year.get_start` / `Year.get_end`. -/
def yearStart (year : Int) : DateTime := ⟨year, 1, 1, 0, 0, 0⟩

def yearEnd (year : Int) : DateTime := ⟨year, 12, 31, 0, 0, 0⟩

/-- `TimePeriod.get_length(unit='days')`: `(self.end - self.start).days + 1`. -/
def periodLengthDays (start stop : DateTime) : Int := tdDays (dtSub stop start) + 1

/-! ## `TimePeriod` comparisons (`timeperiod.py`)

Python `datetime` comparison is chronological comparison, i.e. comparison of
`absSec`; `datetime.__eq__` is field equality. All four operators are total
boolean functions (no exception is ever raised). -/

structure TimePeriod where
  start : DateTime
  end_ : DateTime  -- `end` is a Lean keyword; this is the Python `end` field
deriving DecidableEq, Repr

namespace TimePeriod

/-- `__eq__`: `self.start == other.start and self.end == other.end`. -/
def eqP (a b : TimePeriod) : Bool := a.start == b.start && a.end_ == b.end_

/-- `__lt__`: `self.end < other.start`. -/
def ltP (a b : TimePeriod) : Bool := a.end_.absSec < b.start.absSec

/-- `__gt__`: `self.start > other.end`. -/
def gtP (a b : TimePeriod) : Bool := b.end_.absSec < a.start.absSec

/-- `__le__`: `self < other or self == other`. -/
def leP (a b : TimePeriod) : Bool := a.ltP b || a.eqP b

/-- `__ge__`: `self > other or self == other`. -/
def geP (a b : TimePeriod) : Bool := a.gtP b || a.eqP b

/-- `TimePeriod.contains`: `self.start <= time <= self.end`. -/
def containsDt (p : TimePeriod) (t : DateTime) : Bool :=
  p.start.absSec ≤ t.absSec && t.absSec ≤ p.end_.absSec

end TimePeriod

/-! ## `estimate_timestep` (`timestepping/timestep.py`) -/

/-- Stable insertion of `x` into a list sorted by `key`. -/
def insertSorted {α : Type} (key : α → Int) (x : α) : List α → List α
  | [] => [x]
  | y :: ys => if key x < key y then x :: y :: ys else y :: insertSorted key x ys

/-- Embedding of Python `list.sort()` on datetimes (chronological order; the
relative order of chronologically equal elements is immaterial to every use). -/
def sortByKey {α : Type} (key : α → Int) : List α → List α
  | [] => []
  | x :: xs => insertSorted key x (sortByKey key xs)

/-- Distinct values of a list in order of first occurrence. CPython iterates a
`set` in an implementation-defined order; the fixed order only matters when the
maximal count is attained by several values (a tie), which no claim relies on. -/
def firstDedup : List Int → List Int
  | [] => []
  | x :: xs => x :: (firstDedup xs).filter (fun v => v ≠ x)

/-- `mode(arr) = max(set(arr), key = arr.count)`: a value of maximal
multiplicity. -/
def pyMode (arr : List Int) : Int :=
  match firstDedup arr with
  | [] => 0
  | c :: cs => cs.foldl (fun best x => if arr.count best < arr.count x then x else best) c

/-- `np.isclose(a, b)` (default `rtol = 1e-5`, `atol = 1e-8`) on integers:
`|a - b| ≤ atol + rtol * |b|`, both sides scaled by `10^8`. -/
def npIsClose (a b : Int) : Bool := (a - b).natAbs * 100000000 ≤ 1 + 1000 * b.natAbs

/-- Gaps between consecutive elements, `f next previous`. -/
def adjDiffs {α : Type} (f : α → α → Int) : List α → List Int
  | a :: b :: rest => f b a :: adjDiffs f (b :: rest)
  | _ => []

/-- `(sample[i+1] - sample[i]).days` over a sorted sample. -/
def dayGaps (l : List DateTime) : List Int := adjDiffs (fun b a => tdDays (dtSub b a)) l

/-- `(sample[i+1] - sample[i]).seconds` over a sorted sample. -/
def secondGaps (l : List DateTime) : List Int :=
  adjDiffs (fun b a => tdSeconds (dtSub b a)) l

/-- The timestep families returned by `estimate_timestep`. -/
inductive TSFamily where
  | year | month | dekad | day | hour | viirsModis
deriving DecidableEq, Repr

/-- `mode(all_diff)` over the sorted sample (`step_length` in the source). -/
def modalDayGap (sample : List DateTime) : Int :=
  pyMode (dayGaps (sortByKey DateTime.absSec sample))

/-- `mode(all_diff_seconds)` over the sorted sample. -/
def modalSecondGap (sample : List DateTime) : Int :=
  pyMode (secondGaps (sortByKey DateTime.absSec sample))

/-- `estimate_timestep(sample)`: modal day-gap of the sorted sample, mapped to
a family (`None` when nothing matches). -/
def estimateTimestep (sample : List DateTime) : Option TSFamily :=
  if sample.length < 2 then none
  else if npIsClose (modalDayGap sample) 0 then
    if npIsClose (modalSecondGap sample) 3600 then some .hour else none
  else if npIsClose (modalDayGap sample) 1 then some .day
  else if npIsClose (modalDayGap sample) 8 then
    match (sortByKey DateTime.absSec sample).getLast? with
    | some last => if last.month = 2 ∧ last.day = 28 then some .dekad else some .viirsModis
    | none => none
  else if 9 ≤ modalDayGap sample ∧ modalDayGap sample ≤ 11 then some .dekad
  else if 30 ≤ modalDayGap sample ∧ modalDayGap sample ≤ 31 then some .month
  else if 365 ≤ modalDayGap sample ∧ modalDayGap sample ≤ 366 then some .year
  else none

/-! ## Pattern Resolver (`parse/parse_utils.py`)

Strings are manipulated as `List Char`.  Python regular-expression scanning is
embedded as direct scanners with the same semantics: leftmost match, greedy
quantifiers with backtracking, `re.match` anchored at the start only. -/

/-- Python `\w` (ASCII) plus the character class range `#-.` (codepoints 0x23
to 0x2E) from the tag-token regex `{([\w#-\.]+)(?::(.*?))?}`. -/
def isTagChar (c : Char) : Bool :=
  c.isAlpha || c.isDigit || c == '_' || ('#' ≤ c && c ≤ '.')

/-- Is `needle` a prefix of `hay`? -/
def listIsPrefix : List Char → List Char → Bool
  | [], _ => true
  | _ :: _, [] => false
  | a :: as_, b :: bs => a == b && listIsPrefix as_ bs

/-- Python `needle in hay` on strings. -/
def containsSub (hay needle : List Char) : Bool :=
  listIsPrefix needle hay ||
    (match hay with
     | [] => false
     | _ :: t => containsSub t needle)

/-- Python `hay.replace(needle, repl)`: replace non-overlapping occurrences
left to right. -/
def replaceAllSub (hay needle repl : List Char) : List Char :=
  match hay with
  | [] => []
  | c :: rest =>
      if h : listIsPrefix needle (c :: rest) ∧ needle.length ≠ 0 then
        repl ++ replaceAllSub ((c :: rest).drop needle.length) needle repl
      else
        c :: replaceAllSub rest needle repl
termination_by hay.length
decreasing_by
  · simp only [List.length_drop, List.length_cons]
    omega
  · simp only [List.length_cons]
    omega

/-- Values a tag bag can hold (string, integer, datetime, or list thereof). -/
inductive PyVal where
  | vstr : String → PyVal
  | vint : Int → PyVal
  | vdt : DateTime → PyVal
  | vlist : List PyVal → PyVal
deriving Repr

/-- Nesting depth of list values (the termination measure of the forking
substitution: rebinding a tag to an element of its list strictly shrinks it). -/
def pyDepth : PyVal → Nat
  | .vstr _ => 0
  | .vint _ => 0
  | .vdt _ => 0
  | .vlist [] => 1
  | .vlist (v :: vs) => pyDepth v + pyDepth (.vlist vs)

/-- `dict.get(key)` on an association list. -/
def lookupTag : List (String × PyVal) → String → Option PyVal
  | [], _ => none
  | (k', v') :: rest, k => if k' = k then some v' else lookupTag rest k

/-- `temp_dict[key] = val` (Python dict keys are unique; the embedding updates
the first matching entry). -/
def updateFirst : List (String × PyVal) → String → PyVal → List (String × PyVal)
  | [], _, _ => []
  | (k', v') :: rest, k, v =>
      if k' = k then (k', v) :: rest else (k', v') :: updateFirst rest k v

/-- Total list-depth of a tag bag. -/
def dictDepth (tags : List (String × PyVal)) : Nat :=
  (tags.map (fun kv => pyDepth kv.2)).sum

/-! ### `strptime` (the formats tried by `get_date_from_str`)

CPython `_strptime` compiles each directive to a regular expression
(`%Y → \d{4}`, `%m → 1[0-2]|0[1-9]|[1-9]`, `%d → 3[01]|[12]\d|0[1-9]|[1-9]`,
`%H → 2[0-3]|[0-1]\d|\d`, `%M → [0-5]\d|\d`, `%S → 6[0-1]|[0-5]\d|\d`,
month names case-insensitively), requires the whole string to be consumed,
and finally validates through the `datetime` constructor. -/

inductive FmtDir where
  | lit : Char → FmtDir
  | dY | dm | dd | dH | dM | dS | db | dB
deriving DecidableEq, Repr

def digitVal (c : Char) : Int := (c.toNat : Int) - 48

/-- Candidate parses of a four-digit `%Y`. -/
def candY : List Char → List (Int × List Char)
  | a :: b :: c :: d :: rest =>
      if a.isDigit && b.isDigit && c.isDigit && d.isDigit then
        [(digitVal a * 1000 + digitVal b * 100 + digitVal c * 10 + digitVal d, rest)]
      else []
  | _ => []

/-- Candidate parses of a two-digit-or-one-digit numeric directive, two-digit
alternative first (regex alternation order). -/
def twoDigitCand (p2 : Int → Int → Bool) (p1 : Int → Bool) (cs : List Char) :
    List (Int × List Char) :=
  (match cs with
   | a :: b :: rest =>
       if a.isDigit && b.isDigit && p2 (digitVal a) (digitVal b) then
         [(digitVal a * 10 + digitVal b, rest)]
       else []
   | _ => []) ++
  (match cs with
   | a :: rest => if a.isDigit && p1 (digitVal a) then [(digitVal a, rest)] else []
   | [] => [])

def monthAbbrs : List (String × Int) :=
  [("jan", 1), ("feb", 2), ("mar", 3), ("apr", 4), ("may", 5), ("jun", 6),
   ("jul", 7), ("aug", 8), ("sep", 9), ("oct", 10), ("nov", 11), ("dec", 12)]

/-- Full month names, longest first (CPython sorts keywords by length). -/
def monthFulls : List (String × Int) :=
  [("september", 9), ("february", 2), ("november", 11), ("december", 12),
   ("january", 1), ("october", 10), ("august", 8), ("march", 3), ("april", 4),
   ("june", 6), ("july", 7), ("may", 5)]

/-- Case-insensitive prefix match of a name. -/
def matchNameCI : List Char → List Char → Option (List Char)
  | [], cs => some cs
  | _ :: _, [] => none
  | n :: ns, c :: cs => if n.toLower == c.toLower then matchNameCI ns cs else none

def candNames (names : List (String × Int)) (cs : List Char) : List (Int × List Char) :=
  names.foldr
    (fun nv acc =>
      match matchNameCI nv.1.data cs with
      | some r => (nv.2, r) :: acc
      | none => acc) []

def dirCands : FmtDir → List Char → List (Int × List Char)
  | .lit ch, c :: rest => if c = ch then [(0, rest)] else []
  | .lit _, [] => []
  | .dY, cs => candY cs
  | .dm, cs =>
      twoDigitCand (fun a b => decide ((a = 1 ∧ b ≤ 2) ∨ (a = 0 ∧ 1 ≤ b)))
        (fun a => decide (1 ≤ a)) cs
  | .dd, cs =>
      twoDigitCand (fun a b => decide ((a = 3 ∧ b ≤ 1) ∨ a = 1 ∨ a = 2 ∨ (a = 0 ∧ 1 ≤ b)))
        (fun a => decide (1 ≤ a)) cs
  | .dH, cs =>
      twoDigitCand (fun a b => decide ((a = 2 ∧ b ≤ 3) ∨ a = 0 ∨ a = 1)) (fun _ => true) cs
  | .dM, cs => twoDigitCand (fun a _ => decide (a ≤ 5)) (fun _ => true) cs
  | .dS, cs =>
      twoDigitCand (fun a b => decide ((a = 6 ∧ b ≤ 1) ∨ a ≤ 5)) (fun _ => true) cs
  | .db, cs => candNames monthAbbrs cs
  | .dB, cs => candNames monthFulls cs

/-- The fields recovered by `strptime` (with their Python defaults). -/
structure ParsedDT where
  py : Int := 1900
  pm : Int := 1
  pd : Int := 1
  ph : Int := 0
  pmin : Int := 0
  ps : Int := 0
deriving DecidableEq, Repr

def applyDir (d : FmtDir) (v : Int) (p : ParsedDT) : ParsedDT :=
  match d with
  | .dY => {p with py := v}
  | .dm => {p with pm := v}
  | .dd => {p with pd := v}
  | .dH => {p with ph := v}
  | .dM => {p with pmin := v}
  | .dS => {p with ps := v}
  | .db => {p with pm := v}
  | .dB => {p with pm := v}
  | .lit _ => p

/-- Backtracking matcher for a directive list; the whole string must be
consumed (as `strptime` requires). -/
def matchFmt : List FmtDir → List Char → ParsedDT → Option ParsedDT
  | [], cs, p => if cs.isEmpty then some p else none
  | d :: ds, cs, p =>
      (dirCands d cs).findSome? (fun vr => matchFmt ds vr.2 (applyDir d vr.1 p))

/-- The `datetime(...)` constructor check performed at the end of `strptime`. -/
def parsedValid (p : ParsedDT) : Bool :=
  decide (1 ≤ p.py ∧ 1 ≤ p.pm ∧ p.pm ≤ 12 ∧ 1 ≤ p.pd ∧ p.pd ≤ daysInMonth p.py p.pm ∧
    p.ph ≤ 23 ∧ p.pmin ≤ 59 ∧ p.ps ≤ 59)

def tryFormat (fmt : List FmtDir) (cs : List Char) : Option DateTime :=
  match matchFmt fmt cs {} with
  | some p => if parsedValid p then some ⟨p.py, p.pm, p.pd, p.ph, p.pmin, p.ps⟩ else none
  | none => none

/-- The `_date_formats` list of `get_date_from_str` (`timestepping/time_utils.py`). -/
def dateFormats : List (List FmtDir) :=
  [[.dY, .lit '-', .dm, .lit '-', .dd],
   [.dY, .dm, .dd],
   [.dd, .lit '/', .dm, .lit '/', .dY],
   [.dd, .lit '-', .dm, .lit '-', .dY],
   [.dd, .lit '.', .dm, .lit '.', .dY],
   [.dd, .lit ' ', .db, .lit ' ', .dY],
   [.dd, .lit ' ', .dB, .lit ' ', .dY],
   [.dY, .lit ' ', .db, .lit ' ', .dd],
   [.dY, .lit ' ', .dB, .lit ' ', .dd],
   [.dY, .lit '-', .dm, .lit '-', .dd, .lit ' ', .dH, .lit ':', .dM, .lit ':', .dS],
   [.dY, .lit '-', .dm, .lit '-', .dd, .lit ' ', .dH, .lit ':', .dM],
   [.dY, .lit '-', .dm, .lit '-', .dd, .lit ' ', .dH]]

/-- `get_date_from_str(s)` with no explicit format and `end=False`: the first
format that parses wins; `none` embeds the `ValueError` for an unparsable
string (always caught by the callers modelled here). -/
def getDateFromStr (s : String) : Option DateTime :=
  dateFormats.findSome? (fun f => tryFormat f s.data)

/-! ### `strftime` -/

def pad2 (n : Int) : String := if n < 10 then "0" ++ toString n else toString n

def pad4 (n : Int) : String :=
  if n < 10 then "000" ++ toString n
  else if n < 100 then "00" ++ toString n
  else if n < 1000 then "0" ++ toString n
  else toString n

/-- `datetime.strftime`: the six codes of the key-template syntax, `%%`, and
any other `%x` passed through verbatim (theorems only quantify over patterns
whose codes are among the six). -/
def strftimeChars : List Char → DateTime → List Char
  | [], _ => []
  | '%' :: c :: rest, t =>
      (if c = 'Y' then (toString t.year).data
       else if c = 'm' then (pad2 t.month).data
       else if c = 'd' then (pad2 t.day).data
       else if c = 'H' then (pad2 t.hour).data
       else if c = 'M' then (pad2 t.minute).data
       else if c = 'S' then (pad2 t.second).data
       else if c = '%' then ['%']
       else ['%', c]) ++ strftimeChars rest t
  | c :: rest, t => c :: strftimeChars rest t

def pyStrftime (fmt : String) (t : DateTime) : String := String.mk (strftimeChars fmt.data t)

/-- `str(datetime)`: ISO format with a space separator. -/
def dtStr (t : DateTime) : String :=
  pad4 t.year ++ "-" ++ pad2 t.month ++ "-" ++ pad2 t.day ++ " " ++
    pad2 t.hour ++ ":" ++ pad2 t.minute ++ ":" ++ pad2 t.second

/-- `repr(datetime)` (trailing zero seconds omitted, as CPython does). -/
def dtRepr (t : DateTime) : String :=
  "datetime.datetime(" ++ toString t.year ++ ", " ++ toString t.month ++ ", " ++
    toString t.day ++ ", " ++ toString t.hour ++ ", " ++ toString t.minute ++
    (if t.second = 0 then "" else ", " ++ toString t.second) ++ ")"

/-- `repr(str)`: CPython quotes with `'`, switching to `"` when the string
contains `'` but no `"` (escape sequences are never exercised here). -/
def pyReprStr (s : String) : String :=
  if s.data.contains '\'' && !(s.data.contains '"') then "\"" ++ s ++ "\""
  else "'" ++ s ++ "'"

mutual

/-- Python `str(value)`. -/
def pyStr : PyVal → String
  | .vstr s => s
  | .vint n => toString n
  | .vdt t => dtStr t
  | .vlist l => "[" ++ String.intercalate ", " (pyReprList l) ++ "]"

/-- Python `repr(value)`. -/
def pyRepr : PyVal → String
  | .vstr s => pyReprStr s
  | .vint n => toString n
  | .vdt t => dtRepr t
  | .vlist l => "[" ++ String.intercalate ", " (pyReprList l) ++ "]"

def pyReprList : List PyVal → List String
  | [] => []
  | v :: vs => pyRepr v :: pyReprList vs

end

/-- `format(value, fmt)`: `format(v, '')` is `str(v)`; no pattern quantified
over by a theorem carries a non-empty format specification. -/
def pyFormat (v : PyVal) (_f : String) : String := pyStr v

/-! ### Tag-token scanning (`{([\w#-\.]+)(?::(.*?))?}`) -/

/-- The lazy `(.*?)}` part of a token: text up to the first `}` (a newline
makes the token fail, since `.` does not match it). -/
def parseFmt : (cs : List Char) → Option (List Char × {r : List Char // r.length < cs.length})
  | [] => none
  | c :: rest =>
      if c = '}' then some ([], ⟨rest, by simp⟩)
      else if c = '\n' then none
      else
        match parseFmt rest with
        | some (f, r) => some (c :: f, ⟨r.1, by have := r.2; simp only [List.length_cons]; omega⟩)
        | none => none

/-- After at least one name character: the rest of the name run, then `}` or
`:fmt}`. -/
def parseTokTail : (cs : List Char) →
    Option (List Char × Option (List Char) × {r : List Char // r.length < cs.length})
  | [] => none
  | c :: rest =>
      if isTagChar c then
        match parseTokTail rest with
        | some (nm, f, r) =>
            some (c :: nm, f, ⟨r.1, by have := r.2; simp only [List.length_cons]; omega⟩)
        | none => none
      else if c = '}' then some ([], none, ⟨rest, by simp⟩)
      else if c = ':' then
        match parseFmt rest with
        | some (f, r) =>
            some ([], some f, ⟨r.1, by have := r.2; simp only [List.length_cons]; omega⟩)
        | none => none
      else none

/-- Try to match a whole token at a position just after `{`. -/
def parseTokAfterBrace : (cs : List Char) →
    Option (String × Option String × {r : List Char // r.length < cs.length})
  | [] => none
  | c :: rest =>
      if isTagChar c then
        match parseTokTail rest with
        | some (nm, f, r) =>
            some (String.mk (c :: nm), f.map String.mk,
              ⟨r.1, by have := r.2; simp only [List.length_cons]; omega⟩)
        | none => none
      else none

/-- Leftmost token match: `(text before, name, fmt, text after)`. -/
def findTok : (cs : List Char) →
    Option (List Char × String × Option String × {r : List Char // r.length < cs.length})
  | [] => none
  | c :: rest =>
      if c = '{' then
        match parseTokAfterBrace rest with
        | some (n, f, r) =>
            some ([], n, f, ⟨r.1, by have := r.2; simp only [List.length_cons]; omega⟩)
        | none =>
            match findTok rest with
            | some (pre, n, f, r) =>
                some (c :: pre, n, f, ⟨r.1, by have := r.2; simp only [List.length_cons]; omega⟩)
            | none => none
      else
        match findTok rest with
        | some (pre, n, f, r) =>
            some (c :: pre, n, f, ⟨r.1, by have := r.2; simp only [List.length_cons]; omega⟩)
        | none => none

/-- `match.group(0)`: the original token text. -/
def origTokenText (name : String) (fmt : Option String) : String :=
  match fmt with
  | none => "\x7b" ++ name ++ "\x7d"
  | some f => "\x7b" ++ name ++ ":" ++ f ++ "\x7d"

/-- `replace_match` of `substitute_string`: unbound tokens stay verbatim;
string values are tentatively parsed as dates; a datetime with a (non-empty)
format is rendered by `strftime`; otherwise `format(value, fmt)` or
`str(value)`.  (An empty `fmt` group is falsy in Python, hence the
`isEmpty` tests.) -/
def replaceMatch (name : String) (fmt : Option String) (tags : List (String × PyVal)) :
    String :=
  match lookupTag tags name with
  | none => origTokenText name fmt
  | some v0 =>
      let v : PyVal :=
        match v0 with
        | .vstr s =>
            (match getDateFromStr s with
             | some d => .vdt d
             | none => .vstr s)
        | _ => v0
      match v with
      | .vdt d =>
          (match fmt with
           | some f => if f.isEmpty then pyStr (.vdt d) else pyStrftime f d
           | none => pyStr (.vdt d))
      | _ =>
          (match fmt with
           | some f => if f.isEmpty then pyStr v else pyFormat v f
           | none => pyStr v)

/-- `re.sub(pattern, replace, string)`: replace every token left to right
(replacement text is not rescanned). -/
def subAll (tags : List (String × PyVal)) (cs : List Char) : List Char :=
  match findTok cs with
  | none => cs
  | some (pre, name, fmt, r) => pre ++ (replaceMatch name fmt tags).data ++ subAll tags r.1
termination_by cs.length
decreasing_by exact r.2

/-- Result of `substitute_string`: a string, or (when a list-valued tag forks
the substitution) a nested list of results. -/
inductive PyStrs where
  | s : String → PyStrs
  | l : List PyStrs → PyStrs
deriving Repr

theorem pyDepth_vlist_cons (v : PyVal) (vs : List PyVal) :
    pyDepth (.vlist (v :: vs)) = pyDepth v + pyDepth (.vlist vs) := by
  simp [pyDepth]

theorem pyDepth_vlist_pos (l : List PyVal) : 1 ≤ pyDepth (.vlist l) := by
  induction l with
  | nil => simp [pyDepth]
  | cons v vs ih =>
      rw [pyDepth_vlist_cons]
      omega

theorem pyDepth_lt_of_mem {v : PyVal} {vs : List PyVal} (h : v ∈ vs) :
    pyDepth v < pyDepth (.vlist vs) := by
  induction vs with
  | nil => cases h
  | cons w ws ih =>
      rw [pyDepth_vlist_cons]
      rcases List.mem_cons.mp h with rfl | h'
      · have := pyDepth_vlist_pos ws
        omega
      · have := ih h'
        omega

theorem dictDepth_update_lt {tags : List (String × PyVal)} {name : String} {vs : List PyVal}
    (hl : lookupTag tags name = some (.vlist vs)) {val : PyVal} (hv : val ∈ vs) :
    dictDepth (updateFirst tags name val) < dictDepth tags := by
  induction tags with
  | nil => simp [lookupTag] at hl
  | cons kv rest ih =>
      obtain ⟨k', v'⟩ := kv
      by_cases hk : k' = name
      · rw [show lookupTag ((k', v') :: rest) name = some v' by simp [lookupTag, hk]] at hl
        injection hl with hl
        subst hl
        have hmem := pyDepth_lt_of_mem hv
        simp only [updateFirst, if_pos hk, dictDepth, List.map_cons, List.sum_cons]
        omega
      · rw [show lookupTag ((k', v') :: rest) name = lookupTag rest name by
          simp [lookupTag, hk]] at hl
        have := ih hl
        simp only [updateFirst, if_neg hk, dictDepth, List.map_cons, List.sum_cons] at *
        omega

/-- `generate_strings` of `substitute_string`: the FIRST token of the string
decides; a list-valued binding forks (one independent continuation per
element, with the element rebound), anything else substitutes every token in
one `re.sub` pass. -/
def generateStrings (tags : List (String × PyVal)) (cs : List Char) : PyStrs :=
  match findTok cs with
  | none => .s (String.mk cs)
  | some (pre, name, fmt, r) =>
      match h : lookupTag tags name with
      | some (.vlist vs) =>
          .l (vs.attach.map (fun va =>
            let tags' := updateFirst tags name va.1
            generateStrings tags' (pre ++ (replaceMatch name fmt tags').data ++ r.1)))
      | _ => .s (String.mk (pre ++ (replaceMatch name fmt tags).data ++ subAll tags r.1))
termination_by dictDepth tags
decreasing_by exact dictDepth_update_lt h va.2

/-- `substitute_string(string, tag_dict)` (non-recursive mode, as used by
`get_key`). -/
def substituteString (s : String) (tags : List (String × PyVal)) : PyStrs :=
  generateStrings tags s.data

/-! ## Dataset time signatures and keys (`data/dataset.py`) -/

/-- Rest of the list after the first `}`. -/
def splitCloseBrace : (cs : List Char) → Option {r : List Char // r.length < cs.length}
  | [] => none
  | c :: rest =>
      if c = '}' then some ⟨rest, by simp⟩
      else
        match splitCloseBrace rest with
        | some r => some ⟨r.1, by have := r.2; simp only [List.length_cons]; omega⟩
        | none => none

/-- `re.sub(r'\{[^}]*\}', '', pattern)`: drop every brace group up to its
first closing brace. -/
def removeTags : (cs : List Char) → List Char
  | [] => []
  | c :: rest =>
      if c = '{' then
        match splitCloseBrace rest with
        | some r => removeTags r.1
        | none => c :: removeTags rest
      else c :: removeTags rest
termination_by cs => cs.length
decreasing_by
  · have := r.2; simp only [List.length_cons]; omega
  · simp only [List.length_cons]; omega
  · simp only [List.length_cons]; omega

/-- The core of `Dataset.get_time_signature` after the instant has been
selected: the Feb-29 rollback (yearless pattern, multi-day step), then the
zeroing cascade.  `length` is the resolved step length in days (`None` when
the dataset cannot infer one); note that the seconds test looks for the
lowercase `'%s'`, exactly as the source does. -/
def squashTime (pattern : String) (time : DateTime) (length : Option Int) : DateTime :=
  let keyNoTags := removeTags pattern.data
  let hasyear := containsSub keyNoTags ['%', 'Y']
  let t1 :=
    if ¬ hasyear = true ∧ time.month = 2 ∧ time.day = 29 ∧
        (match length with | some l => decide (1 < l) | none => false) = true then
      {time with day := 28}
    else time
  if containsSub keyNoTags ['%', 's'] = true then t1
  else
    let t2 := {t1 with second := 0}
    if containsSub keyNoTags ['%', 'M'] = true then t2
    else
      let t3 := {t2 with minute := 0}
      if containsSub keyNoTags ['%', 'H'] = true then t3
      else
        let t4 := {t3 with hour := 0}
        if containsSub keyNoTags ['%', 'd'] = true then t4
        else
          let t5 := {t4 with day := 1}
          if containsSub keyNoTags ['%', 'm'] = true then t5
          else {t5 with month := 1}

/-- The three admissible time signatures. -/
inductive TimeSig where
  | start | end_ | endPlus1
deriving DecidableEq, Repr

/-- `get_time_signature(timestep)` for a `TimeStep` argument, abstracted over
the family: `start`/`end`/`end+1` pick the boundary instant (`(timestep+1).start`
for `end+1`), and the length is `timestep.get_length()` in days. -/
def getTimeSignatureTS (pattern : String) (sig : TimeSig)
    (start stop nextStart : DateTime) : DateTime :=
  let time :=
    match sig with
    | .start => start
    | .end_ => stop
    | .endPlus1 => nextStart
  squashTime pattern time (some (periodLengthDays start stop))

/-- `get_key(time, **kwargs)` for a plain instant (or `None`): substitute the
tags, then `time.strftime(raw_key)`.  `length` stands for the step length the
dataset resolves from its state (its declared timestep or the previous
requested instant); `strftime` on a forked (list) result is a `TypeError`. -/
def getKeyInstant (pattern : String) (time : Option DateTime) (length : Option Int)
    (tags : List (String × PyVal)) : Except String PyStrs :=
  match substituteString pattern tags with
  | .s raw =>
      .ok (match time with
        | some t => .s (pyStrftime raw (squashTime pattern t length))
        | none => .s raw)
  | .l l =>
      match time with
      | some _ => .error "TypeError: strftime expects a string template"
      | none => .ok (.l l)

/-- `get_key(timestep, **kwargs)` for a timestep argument. -/
def getKeyTS (pattern : String) (sig : TimeSig) (start stop nextStart : DateTime)
    (tags : List (String × PyVal)) : Except String PyStrs :=
  match substituteString pattern tags with
  | .s raw => .ok (.s (pyStrftime raw (getTimeSignatureTS pattern sig start stop nextStart)))
  | .l _ => .error "TypeError: strftime expects a string template"

/-- `Dekad` timestep identity, with its start/end instants. -/
structure DekadTS where
  year : Int
  step : Int
deriving DecidableEq, Repr

def DekadTS.startDt (ts : DekadTS) : DateTime := dekadStart ts.year ts.step

def DekadTS.endDt (ts : DekadTS) : DateTime := dekadEnd ts.year ts.step

/-- `Dekad.__add__` via the shared `FixedNTimeStep` wrap loops (36 steps). -/
def DekadTS.addTS (ts : DekadTS) (n : Int) : DekadTS :=
  let p := fixedNAdd 36 (ts.year, ts.step) n
  ⟨p.1, p.2⟩

/-! ## Inverse extraction (`extract_date_and_tags`)

The function synthesizes a regular expression from the key pattern:
`{tag}` → `(?P<tag>[^/]+)` (greedy, made `.+` for the tag literally named
`file_version`), `%Y` → `(?P<year>\d{4})`, and `%m %d %H %M %S` → two-digit
captures.  The synthesized regex is embedded as a list of items matched by a
backtracking matcher with Python's greedy semantics (`re.match`: anchored at
the start, not at the end).  A literal `.` of the pattern is the regex
any-character; other literal characters are matched verbatim (the source does
not escape them, so patterns whose literals are regex metacharacters other
than `.` are outside the scope of every theorem below). -/

inductive DateField where
  | fy | fm | fd | fH | fM | fS
deriving DecidableEq, Repr

def fieldWidth : DateField → Nat
  | .fy => 4
  | _ => 2

inductive PItem where
  | lit : Char → PItem
  | dot : PItem
  | tagCap : String → PItem
  | tagCapAll : String → PItem
  | dateCap : DateField → PItem
deriving DecidableEq, Repr

/-- The name run of `\{([\w#-\.]+)\}` (no format part here, unlike the
substitution token) followed by `}`. -/
def parseBraceTag : (cs : List Char) →
    Option (String × {r : List Char // r.length < cs.length})
  | [] => none
  | c :: rest =>
      if isTagChar c then
        match parseBraceTagTail rest with
        | some (nm, r) =>
            some (String.mk (c :: nm), ⟨r.1, by have := r.2; simp only [List.length_cons]; omega⟩)
        | none => none
      else none
where
  parseBraceTagTail : (cs : List Char) →
      Option (List Char × {r : List Char // r.length < cs.length})
    | [] => none
    | c :: rest =>
        if isTagChar c then
          match parseBraceTagTail rest with
          | some (nm, r) =>
              some (c :: nm, ⟨r.1, by have := r.2; simp only [List.length_cons]; omega⟩)
          | none => none
        else if c = '}' then some ([], ⟨rest, by simp⟩)
        else none

/-- Synthesize the extraction regex from the pattern. -/
def compilePat : (cs : List Char) → List PItem
  | [] => []
  | '{' :: rest =>
      (match parseBraceTag rest with
       | some (n, r) =>
           (if n = "file_version" then PItem.tagCapAll n else PItem.tagCap n) :: compilePat r.1
       | none => PItem.lit '{' :: compilePat rest)
  | '%' :: c :: rest =>
      if c = 'Y' then PItem.dateCap .fy :: compilePat rest
      else if c = 'm' then PItem.dateCap .fm :: compilePat rest
      else if c = 'd' then PItem.dateCap .fd :: compilePat rest
      else if c = 'H' then PItem.dateCap .fH :: compilePat rest
      else if c = 'M' then PItem.dateCap .fM :: compilePat rest
      else if c = 'S' then PItem.dateCap .fS :: compilePat rest
      else PItem.lit '%' :: compilePat (c :: rest)
  | '.' :: rest => PItem.dot :: compilePat rest
  | c :: rest => PItem.lit c :: compilePat rest
termination_by cs => cs.length
decreasing_by all_goals first
  | (have hr := r.2; simp only [List.length_cons]; omega)
  | (simp only [List.length_cons]; omega)

/-- A capture binding produced by the match, in match order. -/
inductive PBind where
  | tagB : String → String → PBind
  | dateB : DateField → Int → PBind
deriving DecidableEq, Repr

def digitsVal (ds : List Char) : Int :=
  ds.foldl (fun a c => a * 10 + ((c.toNat : Int) - 48)) 0

/-- Candidate `(capture, rest)` splits of a greedy one-or-more capture,
longest first, down to length 1. -/
def takeDropCands (s : List Char) : Nat → List (List Char × List Char)
  | 0 => []
  | k + 1 => (s.take (k + 1), s.drop (k + 1)) :: takeDropCands s k

/-- Backtracking matcher for the synthesized regex (prefix match, as
`re.match` is). -/
def pmatch : (items : List PItem) → List Char → Option (List PBind)
  | [], _ => some []
  | .lit ch :: ps, c :: rest => if c = ch then pmatch ps rest else none
  | .lit _ :: _, [] => none
  | .dot :: ps, c :: rest => if c ≠ '\n' then pmatch ps rest else none
  | .dot :: _, [] => none
  | .dateCap f :: ps, s =>
      let w := fieldWidth f
      let ds := s.take w
      if ds.length = w ∧ ds.all Char.isDigit then
        (pmatch ps (s.drop w)).map (fun bs => .dateB f (digitsVal ds) :: bs)
      else none
  | .tagCap n :: ps, s =>
      (takeDropCands s (s.takeWhile (fun c => c != '/')).length).findSome?
        (fun cr => (pmatch ps cr.2).map (fun bs => .tagB n (String.mk cr.1) :: bs))
  | .tagCapAll n :: ps, s =>
      (takeDropCands s (s.takeWhile (fun c => c != '\n')).length).findSome?
        (fun cr => (pmatch ps cr.2).map (fun bs => .tagB n (String.mk cr.1) :: bs))
termination_by structural items _ => items

/-- Last-occurrence value of a date field among the bindings (Python's
duplicate-name renaming leaves the plain group name on the last occurrence),
with the `strptime` default as fallback. -/
def lastDate (bs : List PBind) (f : DateField) (dflt : Int) : Int :=
  bs.foldl
    (fun acc b =>
      match b with
      | .dateB g v => if g = f then v else acc
      | .tagB _ _ => acc) dflt

def lookupStr : List (String × String) → String → Option String
  | [], _ => none
  | (k', v') :: rest, k => if k' = k then some v' else lookupStr rest k

/-- Collect the tag captures; a tag captured twice with different values is
the `Duplicate values for tag` error of the source. -/
def collectTags : List PBind → List (String × String) →
    Except String (List (String × String))
  | [], acc => .ok acc
  | .dateB _ _ :: rest, acc => collectTags rest acc
  | .tagB n v :: rest, acc =>
      match lookupStr acc n with
      | none => collectTags rest (acc ++ [(n, v)])
      | some v' =>
          if v' = v then collectTags rest acc
          else .error "Duplicate values for tag"

/-- `name.replace('.','').replace('-','').replace('#','').replace('_','')`. -/
def stripPunct (s : String) : String :=
  String.mk (s.data.filter (fun c => c != '.' && c != '-' && c != '#' && c != '_'))

/-- Tag names appearing in the compiled pattern. -/
def patTagNames (items : List PItem) : List String :=
  items.filterMap (fun it =>
    match it with
    | .tagCap n => some n
    | .tagCapAll n => some n
    | _ => none)

/-- String-valued `firstDedup`. -/
def firstDedupStr : List String → List String
  | [] => []
  | x :: xs => x :: (firstDedupStr xs).filter (fun v => v ≠ x)

/-- `extract_date_and_tags(string, string_pattern)`.  Theorems restrict to
patterns whose tag names carry no punctuation and differ from the six date
group names, which renders the source's name-mangling maps the identity. -/
def extractDateAndTags (key pattern : String) :
    Except String (DateTime × List (String × String)) :=
  let items := compilePat pattern.data
  -- the source first rewrites, in the KEY, any literal `{name}` occurrence of
  -- a pattern tag into the punctuation-stripped name
  let key2 := (firstDedupStr (patTagNames items)).foldl
    (fun k n =>
      if containsSub k ("\x7b" ++ n ++ "\x7d").data then
        replaceAllSub k ("\x7b" ++ n ++ "\x7d").data (stripPunct n).data
      else k) key.data
  match pmatch items key2 with
  | none => .error "The string does not match the pattern"
  | some bs =>
      let y := lastDate bs .fy 1900
      let mo := lastDate bs .fm 1
      let d := lastDate bs .fd 1
      let h := lastDate bs .fH 0
      let mi := lastDate bs .fM 0
      let sec := lastDate bs .fS 0
      -- `dt.datetime(year, month, day, hour, minute, second)` validation
      if 1 ≤ y ∧ 1 ≤ mo ∧ mo ≤ 12 ∧ 1 ≤ d ∧ d ≤ daysInMonth y mo ∧
          h ≤ 23 ∧ mi ≤ 59 ∧ sec ≤ 59 then
        match collectTags bs [] with
        | .ok tags => .ok (⟨y, mo, d, h, mi, sec⟩, tags)
        | .error e => .error e
      else .error "ValueError: invalid date"

/-! ## Availability discovery and derived datasets (`data/dataset.py`)

For `get_times` the relevant state of a dataset is the set of instants its
stored keys parse to, plus its parents; `DsT` captures exactly that. -/

/-- A dataset as seen by `_get_times`: its own available instants (dates of
the keys `get_available_tags` discovers) and its parents. -/
inductive DsT where
  | mk : List DateTime → List DsT → DsT

def DsT.own : DsT → List DateTime
  | .mk o _ => o

def DsT.parents : DsT → List DsT
  | .mk _ p => p

/-- `all_tags['time']` for a range: the (dedup'd, sorted — a Python `set`
then `.sort()`) instants of the stored keys inside the range. -/
def ownTimesIn (own : List DateTime) (r : TimePeriod) : List DateTime :=
  sortByKey DateTime.absSec (dedupDts (own.filter (fun t => r.containsDt t)))
where
  dedupDts : List DateTime → List DateTime
    | [] => []
    | t :: ts => t :: (dedupDts ts).filter (fun u => u ≠ t)

/-- `set.intersection(*parent_times)`: elements of the first list present in
every other list (deduplicated). -/
def intersectTimes : List (List DateTime) → List DateTime
  | [] => []
  | l :: ls => (ownTimesIn.dedupDts l).filter (fun t => ls.all (fun l' => l'.contains t))

/-- `Dataset._get_times(time_range)`: the directly observed instants in the
range (sorted), then — when parents are configured — the intersection of the
parents' `get_times`, skipping instants already yielded and instants outside
the range. -/
def getTimes (d : DsT) (r : TimePeriod) : List DateTime :=
  let allTimes := ownTimesIn d.own r
  allTimes ++
    (if d.parents.isEmpty then []
     else
       (intersectTimes (d.parents.attach.map (fun p => getTimes p.1 r))).filter
         (fun t => ¬ allTimes.contains t ∧ r.containsDt t))
termination_by sizeOf d
decreasing_by
  have := List.sizeOf_lt_of_mem p.2
  cases d
  simp [DsT.parents] at *
  omega

/-! ### Discovery of keys (`get_available_keys`) and `get_data` -/

/-- A storage backend as the Dataset Resolution Engine sees it: the `check`
predicate and the `walk` enumeration (`_check_data` / `_walk`). -/
structure Backend where
  check : String → Bool
  walk : String → List String

/-- `os.path.dirname`: everything before the last `/` (the root `/` is kept
when the last `/` is the leading one; no `/` at all gives `\'\'`). -/
def dirname (s : String) : String :=
  let afterSlash := s.data.reverse.dropWhile (fun c => c != '/')
  if afterSlash.isEmpty then ""
  else if afterSlash.tail.isEmpty then "/"
  else String.mk afterSlash.tail.reverse

theorem dirname_length_lt {s : String} (h : s.data.contains '%' ∨ s.data.contains '{') :
    (dirname s).length < s.length := by
  have hne : s.data ≠ [] := by
    rcases h with h | h <;> (intro he; rw [he] at h; simp at h)
  have hpos : 0 < s.data.length := List.length_pos.mpr hne
  have hslen : s.length = s.data.length := rfl
  have hsplit := @List.takeWhile_append_dropWhile _ (fun c => c != '/') s.data.reverse
  have hlens : (s.data.reverse.takeWhile (fun c => c != '/')).length
      + (s.data.reverse.dropWhile (fun c => c != '/')).length = s.data.length := by
    have h2 := congrArg List.length hsplit
    simp only [List.length_append, List.length_reverse] at h2
    omega
  show (if (s.data.reverse.dropWhile (fun c => c != '/')).isEmpty then ("" : String)
      else if (s.data.reverse.dropWhile (fun c => c != '/')).tail.isEmpty then ("/" : String)
      else String.mk (s.data.reverse.dropWhile (fun c => c != '/')).tail.reverse).length
    < s.length
  split_ifs with h1 h2
  · have e0 : ("" : String).length = 0 := rfl
    omega
  · have e1 : ("/" : String).length = 1 := rfl
    rw [List.isEmpty_iff] at h2
    have hd1 : (s.data.reverse.dropWhile (fun c => c != '/')).length = 1 := by
      have ht := List.length_tail (s.data.reverse.dropWhile (fun c => c != '/'))
      rw [h2] at ht
      have hne2 : s.data.reverse.dropWhile (fun c => c != '/') ≠ [] := by
        intro hc; rw [hc] at h1; simp at h1
      have := List.length_pos.mpr hne2
      simp at ht
      omega
    -- if nothing was dropped, the whole string is just "/", which cannot
    -- contain '%' or '{'
    rcases Nat.eq_zero_or_pos (s.data.reverse.takeWhile (fun c => c != '/')).length with hz | hps
    · exfalso
      have ht0 : s.data.reverse.takeWhile (fun c => c != '/') = [] :=
        List.length_eq_zero.mp hz
      have hrev : s.data.reverse = s.data.reverse.dropWhile (fun c => c != '/') := by
        conv_lhs => rw [← hsplit]
        rw [ht0]
        simp
      obtain ⟨x, hx⟩ : ∃ x, s.data.reverse.dropWhile (fun c => c != '/') = [x] := by
        cases hcase : s.data.reverse.dropWhile (fun c => c != '/') with
        | nil => simp [hcase] at hd1
        | cons a l =>
            rw [hcase] at hd1
            simp at hd1
            exact ⟨a, by rw [hd1]⟩
      have hxs : s.data.reverse = [x] := by rw [hrev, hx]
      by_cases hxb : (x != '/') = true
      · rw [hxs] at hz
        simp [List.takeWhile, hxb] at hz
      · have hpx : x = '/' := by simpa using hxb
        have hdat : s.data = ['/'] := by
          have h3 := congrArg List.reverse hxs
          simp at h3
          rw [h3, hpx]
        rcases h with h | h <;> rw [hdat] at h <;> simp at h
    · omega
  · have e2 : (String.mk (s.data.reverse.dropWhile (fun c => c != '/')).tail.reverse).length
        = (s.data.reverse.dropWhile (fun c => c != '/')).tail.length := by
      show (s.data.reverse.dropWhile (fun c => c != '/')).tail.reverse.length = _
      simp
    have ht := List.length_tail (s.data.reverse.dropWhile (fun c => c != '/'))
    have hne2 : s.data.reverse.dropWhile (fun c => c != '/') ≠ [] := by
      intro hc; rw [hc] at h1; simp at h1
    have := List.length_pos.mpr hne2
    omega

/-- `get_prefix`'s trailing loop: `dirname` until no `%` or `{` remains. -/
def cleanPrefix (s : String) : String :=
  if h : (s.data.contains '%' || s.data.contains '{') = true then cleanPrefix (dirname s)
  else s
termination_by s.length
decreasing_by
  exact dirname_length_lt (by simpa using h)

/-- The `time` argument of `get_available_keys` / `get_prefix`:
`None`, a `datetime`, or a `TimeRange`. -/
inductive TimeArg where
  | noTime : TimeArg
  | at_ : DateTime → TimeArg
  | range : TimePeriod → TimeArg

/-- `has_time`: `'%' in self.key_pattern`. -/
def hasTimePat (pattern : String) : Bool := pattern.data.contains '%'

/-- `get_prefix` for a `TimeRange`: the raw substituted key, `%Y/%m/%d`
narrowed when the range pins a single year/month/day, then `dirname` until
literal. -/
def getPrefixRange (raw : String) (r : TimePeriod) : String :=
  let raw1 :=
    if r.start.year = r.end_.year then
      let rawY := String.mk (replaceAllSub raw.data ['%', 'Y'] (toString r.start.year).data)
      if r.start.month = r.end_.month then
        let rawM := String.mk (replaceAllSub rawY.data ['%', 'm'] (pad2 r.start.month).data)
        if r.start.day = r.end_.day then
          String.mk (replaceAllSub rawM.data ['%', 'd'] (pad2 r.start.day).data)
        else rawM
      else rawY
    else raw
  cleanPrefix (dirname raw1)

/-- `get_available_keys` without the multi-month split (the split recurses on
single-month sub-ranges, each of which takes this path): compute the literal
search prefix, return `[]` at once if the backend check fails, else walk the
prefix keeping the keys that parse against the substituted pattern and whose
instant is in range (a key of a time-less pattern is kept regardless). -/
def getAvailableKeysCore (b : Backend) (pattern : String)
    (tags : List (String × PyVal)) (time : TimeArg) (lengthHint : Option Int) :
    Except String (List String) := do
  let raw ←
    match substituteString pattern tags with
    | .s raw => Except.ok raw
    | .l _ => Except.error "TypeError: list-valued key template"
  let pfx ←
    match time with
    | .range r => Except.ok (getPrefixRange raw r)
    | .at_ t =>
        match getKeyInstant pattern (some t) lengthHint tags with
        | .ok (.s k) => Except.ok (cleanPrefix (dirname k))
        | .ok (.l _) => Except.error "TypeError: list-valued key"
        | .error e => Except.error e
    | .noTime => Except.ok (cleanPrefix (dirname raw))
  if b.check pfx = false then
    return []
  let tr : Option TimePeriod :=
    match time with
    | .at_ t => some ⟨t, t⟩
    | .range r => some r
    | .noTime => none
  return (b.walk pfx).filter (fun f =>
    match extractDateAndTags f raw with
    | .ok (d, _) =>
        (match tr with
         | none => true
         | some r => r.containsDt d || !(hasTimePat pattern))
    | .error _ => false)

/-- What `get_data` resolves: a value read from a backend key, or one
computed from the parents (payload contents are opaque to the claims). -/
inductive DataResult where
  | read : String → DataResult
  | made : DataResult
deriving DecidableEq, Repr

/-- The resolution skeleton of `Dataset.get_data`: resolve the key; tabular
formats read-or-raise; gridded formats read, else derive from parents when
configured, else raise `Could not resolve data from ...`. -/
def getData (b : Backend) (pattern : String) (time : Option DateTime)
    (length : Option Int) (tags : List (String × PyVal))
    (hasParents : Bool) (tabular : Bool) : Except String DataResult :=
  match getKeyInstant pattern time length tags with
  | .error e => .error e
  | .ok (.l _) => .error "TypeError: list-valued key"
  | .ok (.s fullKey) =>
      if tabular then
        if b.check fullKey then .ok (.read fullKey)
        else .error ("Could not resolve data from " ++ fullKey ++ ".")
      else if b.check fullKey then .ok (.read fullKey)
      else if hasParents then .ok .made
      else .error ("Could not resolve data from " ++ fullKey ++ ".")

/-! ### Remote key memo (`remote_dataset.py`) -/

/-- `list.pop(arg)`: CPython accepts only an integer index (negative indices
count from the end); any other argument is a `TypeError`. -/
def pyListPop (l : List String) (arg : PyVal) : Except String (List String) :=
  match arg with
  | .vint i =>
      let idx := if i < 0 then i + l.length else i
      if h : 0 ≤ idx ∧ idx.toNat < l.length then .ok (l.eraseIdx idx.toNat)
      else .error "IndexError: pop index out of range"
  | _ => .error "TypeError: 'str' object cannot be interpreted as an integer"

/-- `RemoteDataset._write_data` memo patch: `if output_key not in
self.available_keys: self.available_keys.append(output_key)`. -/
def writeMemoPatch (memo : List String) (key : String) : List String :=
  if memo.contains key then memo else memo ++ [key]

/-- `RemoteDataset._rm_data` memo patch: `if key in self.available_keys:
self.available_keys.pop(key)` — note `pop`, not `remove`, with the string
key as argument. -/
def rmMemoPatch (memo : List String) (key : String) : Except String (List String) :=
  if memo.contains key then pyListPop memo (.vstr key) else .ok memo

/-! ### Facts about the calendar core -/

theorem isLeap_iff (y : Int) :
    isLeap y = true ↔ (y % 4 = 0 ∧ (y % 100 ≠ 0 ∨ y % 400 = 0)) := by
  simp [isLeap, Bool.and_eq_true, Bool.or_eq_true]

theorem daysInYear_ge (y : Int) : 365 ≤ daysInYear y := by
  unfold daysInYear; split <;> omega

theorem daysInYear_le (y : Int) : daysInYear y ≤ 366 := by
  unfold daysInYear; split <;> omega

theorem secInYear_pos (y : Int) : 0 < secInYear y := by
  have := daysInYear_ge y; unfold secInYear; omega

theorem daysUpTo_sub_one (y : Int) : daysUpTo y - daysUpTo (y - 1) = daysInYear y := by
  unfold daysUpTo daysInYear
  by_cases h : isLeap y = true
  · rw [if_pos h]; rw [isLeap_iff] at h; omega
  · rw [if_neg h]
    have h' : ¬ (y % 4 = 0 ∧ (y % 100 ≠ 0 ∨ y % 400 = 0)) := by
      rw [← isLeap_iff]; exact h
    omega

theorem daysUpTo_add (a : Int) (k : Nat) :
    daysUpTo (a + k) = daysUpTo a + ∑ i ∈ Finset.range k, daysInYear (a + i + 1) := by
  induction k with
  | zero => simp
  | succ n ih =>
      have h := daysUpTo_sub_one (a + n + 1)
      have h2 : a + (n : Int) + 1 - 1 = a + n := by ring
      rw [h2] at h
      have e : (a + ((n + 1 : ℕ) : Int)) = a + (n : Int) + 1 := by push_cast; ring
      rw [e, Finset.sum_range_succ]
      omega

theorem daysUpTo_mono {a b : Int} (h : a ≤ b) : daysUpTo a ≤ daysUpTo b := by
  obtain ⟨k, hk⟩ := Int.le.dest h
  subst hk
  have := daysUpTo_add a k
  have hpos : 0 ≤ ∑ i ∈ Finset.range k, daysInYear (a + i + 1) :=
    Finset.sum_nonneg fun i _ => le_trans (by norm_num) (daysInYear_ge _)
  omega

theorem normUp_spec (y s : Int) :
    absYS (normUp y s).1 (normUp y s).2 = absYS y s ∧
    (normUp y s).2 < secInYear (normUp y s).1 ∧
    (0 ≤ s → 0 ≤ (normUp y s).2) := by
  induction y, s using normUp.induct with
  | case1 y s h ih =>
      have e : normUp y s = normUp (y + 1) (s - secInYear y) := by
        rw [normUp]; exact dif_pos h
      rw [e]
      refine ⟨?_, ih.2.1, fun _ => ih.2.2 (by have := secInYear_pos y; omega)⟩
      rw [ih.1]
      have h1 := daysUpTo_sub_one y
      simp only [absYS, secInYear]
      have h2 : y + 1 - 1 = y := by ring
      rw [h2]
      omega
  | case2 y s h =>
      have e : normUp y s = (y, s) := by rw [normUp]; exact dif_neg h
      rw [e]
      exact ⟨rfl, show s < secInYear y by omega, fun hs => hs⟩

theorem normDown_spec (y s : Int) :
    absYS (normDown y s).1 (normDown y s).2 = absYS y s ∧
    0 ≤ (normDown y s).2 ∧
    (s < secInYear y → (normDown y s).2 < secInYear (normDown y s).1) := by
  induction y, s using normDown.induct with
  | case1 y s h ih =>
      have e : normDown y s = normDown (y - 1) (s + secInYear (y - 1)) := by
        rw [normDown]; exact dif_pos h
      rw [e]
      have hpos := secInYear_pos (y - 1)
      refine ⟨?_, ih.2.1, fun _ => ih.2.2 (by omega)⟩
      rw [ih.1]
      have h1 := daysUpTo_sub_one (y - 1)
      simp only [absYS, secInYear]
      omega
  | case2 y s h =>
      have e : normDown y s = (y, s) := by rw [normDown]; exact dif_neg h
      rw [e]
      exact ⟨rfl, show 0 ≤ s by omega, fun hs => hs⟩

theorem yearNorm_spec (y s : Int) :
    absYS (yearNorm y s).1 (yearNorm y s).2 = absYS y s ∧
    0 ≤ (yearNorm y s).2 ∧ (yearNorm y s).2 < secInYear (yearNorm y s).1 := by
  unfold yearNorm
  have hu := normUp_spec y s
  have hd := normDown_spec (normUp y s).1 (normUp y s).2
  exact ⟨by rw [hd.1, hu.1], hd.2.1, hd.2.2 hu.2.1⟩

theorem yearNorm_id {y s : Int} (h0 : 0 ≤ s) (h1 : s < secInYear y) :
    yearNorm y s = (y, s) := by
  unfold yearNorm
  have e1 : normUp y s = (y, s) := by rw [normUp]; exact dif_neg (by omega)
  rw [e1]
  rw [normDown]; exact dif_neg (by omega)

theorem absYS_inj {y1 s1 y2 s2 : Int} (ha : 0 ≤ s1) (hb : s1 < secInYear y1)
    (hc : 0 ≤ s2) (hd : s2 < secInYear y2) (he : absYS y1 s1 = absYS y2 s2) :
    y1 = y2 ∧ s1 = s2 := by
  have key : ∀ a1 b1 a2 b2 : Int, 0 ≤ b1 → b1 < secInYear a1 → 0 ≤ b2 →
      absYS a1 b1 = absYS a2 b2 → a1 < a2 → False := by
    intro a1 b1 a2 b2 k1 k2 k3 k4 k5
    have m := daysUpTo_mono (show a1 ≤ a2 - 1 by omega)
    have d1 := daysUpTo_sub_one a1
    have r1 : a1 - 1 + 1 = a1 := by ring
    unfold absYS secInYear at *
    omega
  rcases lt_trichotomy y1 y2 with hlt | heq | hgt
  · exact absurd (key y1 s1 y2 s2 ha hb hc he hlt) (fun h => h)
  · subst heq
    refine ⟨rfl, ?_⟩
    unfold absYS at he; omega
  · exact absurd (key y2 s2 y1 s1 hc hd ha he.symm hgt) (fun h => h)

set_option maxRecDepth 10000 in
theorem dateOfDoyL_spec_nat :
    ∀ (L : Bool) (k : Nat), k < 366 →
    (((k : Int) + 1 ≤ 365 + (if L then 1 else 0)) →
      1 ≤ (dateOfDoyL L ((k : Int) + 1)).1 ∧ (dateOfDoyL L ((k : Int) + 1)).1 ≤ 12 ∧
      1 ≤ (dateOfDoyL L ((k : Int) + 1)).2 ∧
      (dateOfDoyL L ((k : Int) + 1)).2 ≤ daysInMonthL L (dateOfDoyL L ((k : Int) + 1)).1 ∧
      cumDaysL L (dateOfDoyL L ((k : Int) + 1)).1 + (dateOfDoyL L ((k : Int) + 1)).2
        = (k : Int) + 1) := by
  decide

theorem dateOfDoyL_spec (L : Bool) (n : Int) (h1 : 1 ≤ n)
    (h2 : n ≤ 365 + (if L then 1 else 0)) :
    1 ≤ (dateOfDoyL L n).1 ∧ (dateOfDoyL L n).1 ≤ 12 ∧
    1 ≤ (dateOfDoyL L n).2 ∧ (dateOfDoyL L n).2 ≤ daysInMonthL L (dateOfDoyL L n).1 ∧
    cumDaysL L (dateOfDoyL L n).1 + (dateOfDoyL L n).2 = n := by
  have hn : n = ((n - 1).toNat : Int) + 1 := by omega
  have hk : (n - 1).toNat < 366 := by
    cases L <;> simp at h2 <;> omega
  rw [hn]
  exact dateOfDoyL_spec_nat L (n - 1).toNat hk (by omega)

theorem ofYearSec_eq (y s : Int) :
    ofYearSec y s = ⟨y, (dateOfDoyL (isLeap y) (s / 86400 + 1)).1,
      (dateOfDoyL (isLeap y) (s / 86400 + 1)).2,
      s % 86400 / 3600, s % 86400 % 3600 / 60, s % 86400 % 60⟩ := rfl

theorem ofYearSec_spec (y s : Int) (h0 : 0 ≤ s) (h1 : s < secInYear y) :
    (ofYearSec y s).year = y ∧
    (ofYearSec y s).doy = s / 86400 + 1 ∧
    (ofYearSec y s).secOfDay = s % 86400 ∧
    (ofYearSec y s).valid ∧
    (ofYearSec y s).absSec = absYS y s := by
  have hy := daysInYear_ge y
  have hd1 : 1 ≤ s / 86400 + 1 := by omega
  have hd2 : s / 86400 + 1 ≤ daysInYear y := by
    unfold secInYear at h1; omega
  have hb : s / 86400 + 1 ≤ 365 + (if isLeap y then 1 else 0) := by
    unfold daysInYear at hd2
    rcases Bool.eq_false_or_eq_true (isLeap y) with hL | hL <;>
      rw [hL] at hd2 ⊢ <;> simp at hd2 ⊢ <;> omega
  obtain ⟨m1, m2, d1, d2, hsum⟩ := dateOfDoyL_spec (isLeap y) (s / 86400 + 1) hd1 hb
  rw [ofYearSec_eq]
  refine ⟨rfl, ?_, ?_, ?_, ?_⟩
  · simp only [DateTime.doy, doyOf]
    omega
  · simp only [DateTime.secOfDay]
    omega
  · simp only [DateTime.valid, daysInMonth]
    exact ⟨m1, m2, d1, d2, by omega, by omega, by omega, by omega, by omega, by omega⟩
  · simp only [DateTime.absSec, DateTime.absDay, DateTime.doy, DateTime.secOfDay, doyOf, absYS]
    omega

theorem addSeconds_eq (t : DateTime) (n : Int) :
    t.addSeconds n
      = ofYearSec (yearNorm t.year (86400 * (t.doy - 1) + t.secOfDay + n)).1
          (yearNorm t.year (86400 * (t.doy - 1) + t.secOfDay + n)).2 := rfl

theorem addSeconds_absSec (t : DateTime) (n : Int) :
    (t.addSeconds n).absSec = t.absSec + n ∧ (t.addSeconds n).valid := by
  rw [addSeconds_eq]
  have hn := yearNorm_spec t.year (86400 * (t.doy - 1) + t.secOfDay + n)
  have ho := ofYearSec_spec _ _ hn.2.1 hn.2.2
  refine ⟨?_, ho.2.2.2.1⟩
  rw [ho.2.2.2.2, hn.1]
  unfold absYS DateTime.absSec DateTime.absDay
  ring

theorem addSeconds_eq_of_absSec {t1 t2 : DateTime} {n1 n2 : Int}
    (h : t1.absSec + n1 = t2.absSec + n2) :
    t1.addSeconds n1 = t2.addSeconds n2 := by
  rw [addSeconds_eq, addSeconds_eq]
  have hn1 := yearNorm_spec t1.year (86400 * (t1.doy - 1) + t1.secOfDay + n1)
  have hn2 := yearNorm_spec t2.year (86400 * (t2.doy - 1) + t2.secOfDay + n2)
  have habs : absYS t1.year (86400 * (t1.doy - 1) + t1.secOfDay + n1)
      = absYS t2.year (86400 * (t2.doy - 1) + t2.secOfDay + n2) := by
    unfold absYS
    unfold DateTime.absSec DateTime.absDay at h
    omega
  have hij := absYS_inj hn1.2.1 hn1.2.2 hn2.2.1 hn2.2.2 (by rw [hn1.1, hn2.1]; exact habs)
  rw [hij.1, hij.2]

theorem addSeconds_zero_ofYearSec {y s : Int} (h0 : 0 ≤ s) (h1 : s < secInYear y) :
    (ofYearSec y s).addSeconds 0 = ofYearSec y s := by
  have ho := ofYearSec_spec y s h0 h1
  rw [addSeconds_eq]
  rw [ho.1, ho.2.1, ho.2.2.1]
  have e : 86400 * (s / 86400 + 1 - 1) + s % 86400 + 0 = s := by omega
  rw [e, yearNorm_id h0 h1]

/-! ### Fixed-count timestep arithmetic -/

theorem addLoopUp_spec (nS y s : Int) :
    (addLoopUp nS y s).1 * nS + (addLoopUp nS y s).2 = y * nS + s ∧
    (1 ≤ nS → (addLoopUp nS y s).2 ≤ nS) := by
  refine addLoopUp.induct nS
    (fun y s => (addLoopUp nS y s).1 * nS + (addLoopUp nS y s).2 = y * nS + s ∧
      (1 ≤ nS → (addLoopUp nS y s).2 ≤ nS)) ?_ ?_ y s
  · intro y s hc ih
    have e : addLoopUp nS y s = addLoopUp nS (y + 1) (s - nS) := by
      rw [addLoopUp]; exact dif_pos hc
    rw [e]
    exact ⟨by rw [ih.1]; ring, ih.2⟩
  · intro y s hc
    have e : addLoopUp nS y s = (y, s) := by rw [addLoopUp]; exact dif_neg hc
    rw [e]
    exact ⟨rfl, fun h1 => show s ≤ nS by omega⟩

theorem addLoopDown_spec (nS y s : Int) :
    (addLoopDown nS y s).1 * nS + (addLoopDown nS y s).2 = y * nS + s ∧
    (1 ≤ nS → 1 ≤ (addLoopDown nS y s).2) ∧
    (s ≤ nS → (addLoopDown nS y s).2 ≤ nS) := by
  refine addLoopDown.induct nS
    (fun y s => (addLoopDown nS y s).1 * nS + (addLoopDown nS y s).2 = y * nS + s ∧
      (1 ≤ nS → 1 ≤ (addLoopDown nS y s).2) ∧
      (s ≤ nS → (addLoopDown nS y s).2 ≤ nS)) ?_ ?_ y s
  · intro y s hc ih
    have e : addLoopDown nS y s = addLoopDown nS (y - 1) (s + nS) := by
      rw [addLoopDown]; exact dif_pos hc
    rw [e]
    exact ⟨by rw [ih.1]; ring, ih.2.1, fun _ => ih.2.2 (by omega)⟩
  · intro y s hc
    have e : addLoopDown nS y s = (y, s) := by rw [addLoopDown]; exact dif_neg hc
    rw [e]
    exact ⟨rfl, fun h1 => show 1 ≤ s by omega, fun hs => hs⟩

theorem fixedNAdd_eq (nS n : Int) (p : Int × Int) :
    fixedNAdd nS p n
      = addLoopDown nS (addLoopUp nS p.1 (p.2 + n)).1 (addLoopUp nS p.1 (p.2 + n)).2 := rfl

theorem fixedNAdd_spec (nS n : Int) (p : Int × Int) (h : 1 ≤ nS) :
    (fixedNAdd nS p n).1 * nS + (fixedNAdd nS p n).2 = p.1 * nS + p.2 + n ∧
    1 ≤ (fixedNAdd nS p n).2 ∧ (fixedNAdd nS p n).2 ≤ nS := by
  have hu := addLoopUp_spec nS p.1 (p.2 + n)
  have hd := addLoopDown_spec nS (addLoopUp nS p.1 (p.2 + n)).1 (addLoopUp nS p.1 (p.2 + n)).2
  rw [fixedNAdd_eq]
  refine ⟨?_, hd.2.1 h, hd.2.2 (hu.2 h)⟩
  rw [hd.1, hu.1]; ring

theorem stepPairUnique {nS y1 s1 y2 s2 : Int} (h : 1 ≤ nS)
    (a1 : 1 ≤ s1) (a2 : s1 ≤ nS) (b1 : 1 ≤ s2) (b2 : s2 ≤ nS)
    (he : y1 * nS + s1 = y2 * nS + s2) : y1 = y2 ∧ s1 = s2 := by
  have key : ∀ u1 v1 u2 v2 : Int, v1 ≤ nS → 1 ≤ v2 →
      u1 * nS + v1 = u2 * nS + v2 → u1 < u2 → False := by
    intro u1 v1 u2 v2 k1 k2 k3 k4
    have h6 : (u1 + 1) * nS ≤ u2 * nS :=
      mul_le_mul_of_nonneg_right (by omega) (by omega)
    rw [add_mul, one_mul] at h6
    linarith
  rcases lt_trichotomy y1 y2 with hlt | heq | hgt
  · exact absurd (key y1 s1 y2 s2 a2 b1 he hlt) (fun hh => hh)
  · subst heq
    exact ⟨rfl, by have := add_left_cancel he; exact this⟩
  · exact absurd (key y2 s2 y1 s1 b2 a1 he.symm hgt) (fun hh => hh)

theorem fixedNAdd_roundtrip (nS n : Int) (p : Int × Int) (h : 1 ≤ nS)
    (h1 : 1 ≤ p.2) (h2 : p.2 ≤ nS) :
    fixedNSub nS (fixedNAdd nS p n) n = p := by
  have ha := fixedNAdd_spec nS n p h
  have hb := fixedNAdd_spec nS (-n) (fixedNAdd nS p n) h
  unfold fixedNSub
  have he : (fixedNAdd nS (fixedNAdd nS p n) (-n)).1 * nS
      + (fixedNAdd nS (fixedNAdd nS p n) (-n)).2 = p.1 * nS + p.2 := by
    rw [hb.1, ha.1]; ring
  have hu := stepPairUnique h hb.2.1 hb.2.2 h1 h2 he
  exact Prod.ext hu.1 hu.2

/-! ### Day / Hour timestep arithmetic -/

theorem jan1_absSec (y : Int) : (⟨y, 1, 1, 0, 0, 0⟩ : DateTime).absSec = absYS y 0 := by
  simp only [DateTime.absSec, DateTime.absDay, DateTime.doy, DateTime.secOfDay, doyOf,
    cumDaysL, cumN, absYS]
  norm_num

theorem addSeconds_eq_ofYearSec {t : DateTime} {n y s : Int} (h0 : 0 ≤ s)
    (h1 : s < secInYear y) (habs : t.absSec + n = absYS y s) :
    t.addSeconds n = ofYearSec y s := by
  have hz : t.addSeconds n = (ofYearSec y s).addSeconds 0 := by
    apply addSeconds_eq_of_absSec
    rw [(ofYearSec_spec y s h0 h1).2.2.2.2]; omega
  rw [hz, addSeconds_zero_ofYearSec h0 h1]

theorem startDt_day {y j : Int} (h1 : 1 ≤ j) (h2 : j ≤ daysInYear y) :
    DayTS.startDt ⟨y, j⟩ = ofYearSec y ((j - 1) * 86400) := by
  show DateTime.addSeconds ⟨y, 1, 1, 0, 0, 0⟩ ((j - 1) * 86400)
      = ofYearSec y ((j - 1) * 86400)
  apply addSeconds_eq_ofYearSec (by omega) (by simp only [secInYear]; omega)
  rw [jan1_absSec]
  simp only [absYS]; ring

theorem startDt_hour {y j : Int} (h1 : 1 ≤ j) (h2 : j ≤ 24 * daysInYear y) :
    HourTS.startDt ⟨y, j⟩ = ofYearSec y ((j - 1) * 3600) := by
  show DateTime.addSeconds ⟨y, 1, 1, 0, 0, 0⟩ ((j - 1) * 3600)
      = ofYearSec y ((j - 1) * 3600)
  apply addSeconds_eq_ofYearSec (by omega) (by simp only [secInYear]; omega)
  rw [jan1_absSec]
  simp only [absYS]; ring

theorem ofYearSec_hour (y s : Int) : (ofYearSec y s).hour = s % 86400 / 3600 := by
  rw [ofYearSec_eq]

theorem dayTS_roundtrip (ts : DayTS) (h : ts.validTS) (n : Int) :
    (ts.add n).sub n = ts := by
  obtain ⟨y, j⟩ := ts
  obtain ⟨h1, h2⟩ := h
  replace h1 : 1 ≤ j := h1
  replace h2 : j ≤ daysInYear y := h2
  have hy := daysInYear_ge y
  have hs00 : (0:Int) ≤ (j - 1) * 86400 := by omega
  have hs01 : (j - 1) * 86400 < secInYear y := by simp only [secInYear]; omega
  have hstart : DayTS.startDt ⟨y, j⟩ = ofYearSec y ((j - 1) * 86400) := startDt_day h1 h2
  have hnorm := yearNorm_spec y ((j - 1) * 86400 + n * 86400)
  have hoy := ofYearSec_spec y ((j - 1) * 86400) hs00 hs01
  have e1 : DateTime.addSeconds (ofYearSec y ((j - 1) * 86400)) (n * 86400)
      = ofYearSec (yearNorm y ((j - 1) * 86400 + n * 86400)).1
          (yearNorm y ((j - 1) * 86400 + n * 86400)).2 := by
    rw [addSeconds_eq, hoy.1, hoy.2.1, hoy.2.2.1]
    have e : 86400 * ((j - 1) * 86400 / 86400 + 1 - 1) + (j - 1) * 86400 % 86400 + n * 86400
        = (j - 1) * 86400 + n * 86400 := by omega
    rw [e]
  have hnY := hnorm.2.1
  have hnS := hnorm.2.2
  have hopen := ofYearSec_spec _ _ hnY hnS
  have hyY := daysInYear_ge (yearNorm y ((j - 1) * 86400 + n * 86400)).1
  have hS2 : (yearNorm y ((j - 1) * 86400 + n * 86400)).2
      < 86400 * daysInYear (yearNorm y ((j - 1) * 86400 + n * 86400)).1 := by
    simpa [secInYear] using hnS
  have hdvd : (86400 : Int) ∣ (yearNorm y ((j - 1) * 86400 + n * 86400)).2 := by
    have habs := hnorm.1
    simp only [absYS] at habs
    omega
  have hadd : DayTS.add ⟨y, j⟩ n
      = ⟨(yearNorm y ((j - 1) * 86400 + n * 86400)).1,
         (yearNorm y ((j - 1) * 86400 + n * 86400)).2 / 86400 + 1⟩ := by
    unfold DayTS.add DayTS.fromDate
    rw [hstart, e1, hopen.1, hopen.2.1]
  have hstart2 : DayTS.startDt ⟨(yearNorm y ((j - 1) * 86400 + n * 86400)).1,
      (yearNorm y ((j - 1) * 86400 + n * 86400)).2 / 86400 + 1⟩
      = ofYearSec (yearNorm y ((j - 1) * 86400 + n * 86400)).1
          (yearNorm y ((j - 1) * 86400 + n * 86400)).2 := by
    have hb1 : 1 ≤ (yearNorm y ((j - 1) * 86400 + n * 86400)).2 / 86400 + 1 := by omega
    have hb2 : (yearNorm y ((j - 1) * 86400 + n * 86400)).2 / 86400 + 1
        ≤ daysInYear (yearNorm y ((j - 1) * 86400 + n * 86400)).1 := by omega
    rw [startDt_day hb1 hb2]
    have e2 : ((yearNorm y ((j - 1) * 86400 + n * 86400)).2 / 86400 + 1 - 1) * 86400
        = (yearNorm y ((j - 1) * 86400 + n * 86400)).2 := by omega
    rw [e2]
  unfold DayTS.sub
  rw [hadd]
  unfold DayTS.add DayTS.fromDate
  rw [hstart2]
  have e3 : DateTime.addSeconds
      (ofYearSec (yearNorm y ((j - 1) * 86400 + n * 86400)).1
        (yearNorm y ((j - 1) * 86400 + n * 86400)).2) (-n * 86400)
      = ofYearSec y ((j - 1) * 86400) := by
    apply addSeconds_eq_ofYearSec hs00 hs01
    rw [hopen.2.2.2.2, hnorm.1]
    simp only [absYS]; ring
  rw [e3, hoy.1, hoy.2.1]
  have e4 : (j - 1) * 86400 / 86400 + 1 = j := by omega
  rw [e4]

theorem hourTS_roundtrip (ts : HourTS) (h : ts.validTS) (n : Int) :
    (ts.addSec n).addSec (-n) = ts := by
  obtain ⟨y, j⟩ := ts
  obtain ⟨h1, h2⟩ := h
  replace h1 : 1 ≤ j := h1
  replace h2 : j ≤ 24 * daysInYear y := h2
  have hy := daysInYear_ge y
  have hs00 : (0:Int) ≤ (j - 1) * 3600 := by omega
  have hs01 : (j - 1) * 3600 < secInYear y := by simp only [secInYear]; omega
  have hstart : HourTS.startDt ⟨y, j⟩ = ofYearSec y ((j - 1) * 3600) := startDt_hour h1 h2
  have hnorm := yearNorm_spec y ((j - 1) * 3600 + n * 3600)
  have hoy := ofYearSec_spec y ((j - 1) * 3600) hs00 hs01
  have e1 : DateTime.addSeconds (ofYearSec y ((j - 1) * 3600)) (n * 3600)
      = ofYearSec (yearNorm y ((j - 1) * 3600 + n * 3600)).1
          (yearNorm y ((j - 1) * 3600 + n * 3600)).2 := by
    rw [addSeconds_eq, hoy.1, hoy.2.1, hoy.2.2.1]
    have e : 86400 * ((j - 1) * 3600 / 86400 + 1 - 1) + (j - 1) * 3600 % 86400 + n * 3600
        = (j - 1) * 3600 + n * 3600 := by omega
    rw [e]
  have hnY := hnorm.2.1
  have hnS := hnorm.2.2
  have hopen := ofYearSec_spec _ _ hnY hnS
  have hyY := daysInYear_ge (yearNorm y ((j - 1) * 3600 + n * 3600)).1
  have hS2 : (yearNorm y ((j - 1) * 3600 + n * 3600)).2
      < 86400 * daysInYear (yearNorm y ((j - 1) * 3600 + n * 3600)).1 := by
    simpa [secInYear] using hnS
  have hdvd : (3600 : Int) ∣ (yearNorm y ((j - 1) * 3600 + n * 3600)).2 := by
    have habs := hnorm.1
    simp only [absYS] at habs
    omega
  have hstep : ((yearNorm y ((j - 1) * 3600 + n * 3600)).2 / 86400 + 1 - 1) * 24
      + (yearNorm y ((j - 1) * 3600 + n * 3600)).2 % 86400 / 3600 + 1
      = (yearNorm y ((j - 1) * 3600 + n * 3600)).2 / 3600 + 1 := by omega
  have hadd : HourTS.addSec ⟨y, j⟩ n
      = ⟨(yearNorm y ((j - 1) * 3600 + n * 3600)).1,
         (yearNorm y ((j - 1) * 3600 + n * 3600)).2 / 3600 + 1⟩ := by
    unfold HourTS.addSec HourTS.fromDate
    rw [hstart, e1, hopen.1, hopen.2.1, ofYearSec_hour]
    rw [HourTS.mk.injEq]
    exact ⟨rfl, hstep⟩
  have hstart2 : HourTS.startDt ⟨(yearNorm y ((j - 1) * 3600 + n * 3600)).1,
      (yearNorm y ((j - 1) * 3600 + n * 3600)).2 / 3600 + 1⟩
      = ofYearSec (yearNorm y ((j - 1) * 3600 + n * 3600)).1
          (yearNorm y ((j - 1) * 3600 + n * 3600)).2 := by
    have hb1 : 1 ≤ (yearNorm y ((j - 1) * 3600 + n * 3600)).2 / 3600 + 1 := by omega
    have hb2 : (yearNorm y ((j - 1) * 3600 + n * 3600)).2 / 3600 + 1
        ≤ 24 * daysInYear (yearNorm y ((j - 1) * 3600 + n * 3600)).1 := by omega
    rw [startDt_hour hb1 hb2]
    have e2 : ((yearNorm y ((j - 1) * 3600 + n * 3600)).2 / 3600 + 1 - 1) * 3600
        = (yearNorm y ((j - 1) * 3600 + n * 3600)).2 := by omega
    rw [e2]
  rw [hadd]
  unfold HourTS.addSec HourTS.fromDate
  rw [hstart2]
  have e3 : DateTime.addSeconds
      (ofYearSec (yearNorm y ((j - 1) * 3600 + n * 3600)).1
        (yearNorm y ((j - 1) * 3600 + n * 3600)).2) (-n * 3600)
      = ofYearSec y ((j - 1) * 3600) := by
    apply addSeconds_eq_ofYearSec hs00 hs01
    rw [hopen.2.2.2.2, hnorm.1]
    simp only [absYS]; ring
  rw [e3, hoy.1, hoy.2.1, ofYearSec_hour]
  rw [HourTS.mk.injEq]
  refine ⟨rfl, ?_⟩
  omega

/-- `yearNorm` evaluated through the absolute-seconds characterization:
the normalized pair is the unique in-range pair with the same `absYS`. -/
theorem yearNorm_eq_of_absYS {y s y' s' : Int} (h0 : 0 ≤ s') (h1 : s' < secInYear y')
    (h : absYS y s = absYS y' s') : yearNorm y s = (y', s') := by
  have hn := yearNorm_spec y s
  have hij := absYS_inj hn.2.1 hn.2.2 h0 h1 (by rw [hn.1]; exact h)
  rw [Prod.ext_iff]
  exact ⟨hij.1, hij.2⟩

/-- When the binary64 pipeline lands exactly on the hour boundary,
`Hour.__add__` advances by exactly `n` hours. -/
theorem hourAdd_eq_addSec {n : Int} (hx : hourFloatDeltaUs n = 3600000000 * n)
    (ts : HourTS) : ts.add n = ts.addSec n := by
  unfold HourTS.add HourTS.addSec
  rw [hx, show (3600000000 : Int) * n = 1000000 * (3600 * n) from by ring,
    Int.mul_ediv_cancel_left _ (by norm_num), mul_comm]

/-- The `Hour` round-trip, conditional on the float pipeline being exact in
both directions. -/
theorem hourTS_float_roundtrip (ts : HourTS) (h : ts.validTS) (n : Int)
    (hx : hourFloatDeltaUs n = 3600000000 * n)
    (hx' : hourFloatDeltaUs (-n) = -(3600000000 * n)) :
    (ts.add n).sub n = ts := by
  unfold HourTS.sub
  rw [hourAdd_eq_addSec hx, hourAdd_eq_addSec (by rw [hx']; ring)]
  exact hourTS_roundtrip ts h n

/-! ### `np.isclose` on integer gaps -/

theorem npIsClose_zero (a : Int) : npIsClose a 0 = true ↔ a = 0 := by
  simp only [npIsClose, decide_eq_true_eq]
  omega

theorem npIsClose_one (a : Int) : npIsClose a 1 = true ↔ a = 1 := by
  simp only [npIsClose, decide_eq_true_eq]
  omega

theorem npIsClose_eight (a : Int) : npIsClose a 8 = true ↔ a = 8 := by
  simp only [npIsClose, decide_eq_true_eq]
  omega

theorem npIsClose_hour (a : Int) : npIsClose a 3600 = true ↔ a = 3600 := by
  simp only [npIsClose, decide_eq_true_eq]
  omega

/-! ## Claim theorems -/

/-- C3 counterexample: `Hour.__add__` goes through the binary64 value
`n * (1/24)`, and for `n = 2000002` that jump is one microsecond short of
2000002 hours (`7200007199999999 µs`), so `(2021, 8760) + 2000002` lands at
2250-02-28 08:59:59.999999 — step 1401 instead of 1402 — and subtracting
2000002 again returns `(2021, 8759)`, not the original `(2021, 8760)`:
the round-trip claimed for every integer `n` fails in the program at a
valid input. -/
theorem claim_C3_counterexample :
    hourFloatDeltaUs 2000002 = 7200007199999999 ∧
    (HourTS.mk 2021 8760).add 2000002 = HourTS.mk 2250 1401 ∧
    ((HourTS.mk 2021 8760).add 2000002).sub 2000002 = HourTS.mk 2021 8759 ∧
    HourTS.mk 2021 8759 ≠ HourTS.mk 2021 8760 := by
  have hd1 : hourFloatDeltaUs 2000002 = 7200007199999999 := by decide
  have hd2 : hourFloatDeltaUs (-2000002) = -7200007199999999 := by decide
  have hstart1 : HourTS.startDt ⟨2021, 8760⟩ = ofYearSec 2021 31532400 := by
    rw [startDt_hour (by norm_num) (by decide)]
    norm_num
  have hadd1 : (HourTS.mk 2021 8760).add 2000002 = HourTS.mk 2250 1401 := by
    unfold HourTS.add
    rw [hd1, hstart1, show (7200007199999999 : Int) / 1000000 = 7200007199 from by decide]
    rw [addSeconds_eq_ofYearSec (y := 2250) (s := 5043599) (by norm_num) (by decide)
      (by decide)]
    decide
  have hstart2 : HourTS.startDt ⟨2250, 1401⟩ = ofYearSec 2250 5040000 := by
    rw [startDt_hour (by norm_num) (by decide)]
    norm_num
  have hadd2 : (HourTS.mk 2250 1401).add (-2000002) = HourTS.mk 2021 8759 := by
    unfold HourTS.add
    rw [hd2, hstart2, show (-7200007199999999 : Int) / 1000000 = -7200007200 from by decide]
    rw [addSeconds_eq_ofYearSec (y := 2021) (s := 31528800) (by norm_num) (by decide)
      (by decide)]
    decide
  refine ⟨hd1, hadd1, ?_, by decide⟩
  unfold HourTS.sub
  rw [hadd1, hadd2]

/-- **C3** (corrected): the fixed-count families (`Year`, `Month`, `Dekad`,
`n_steps` 1, 12, 36) and the fixed-day-of-year family (`ViirsModisTimeStep`,
`n_steps` 46) use the integer wrap loops of `FixedNTimeStep.__add__`: they
round-trip for every integer `n` and keep `1 ≤ step ≤ n_steps`, so
`from_step` never raises.  `Day` (integer `length = 1`) also round-trips for
every `n`.  `Hour` (`length = 1/24`, a float) computes its jump through
binary64 arithmetic; the round-trip holds exactly when that pipeline lands
on the hour boundary in both directions — true for small `|n|`, but failing
around `|n| ≈ 2·10⁶` (see the counterexample). -/
theorem claim_C3_timestep_arithmetic :
    (∀ nSteps : Int, 1 ≤ nSteps → ∀ p : Int × Int, 1 ≤ p.2 → p.2 ≤ nSteps → ∀ n : Int,
      fixedNSub nSteps (fixedNAdd nSteps p n) n = p ∧
      1 ≤ (fixedNAdd nSteps p n).2 ∧ (fixedNAdd nSteps p n).2 ≤ nSteps) ∧
    (∀ ts : DayTS, ts.validTS → ∀ n : Int, (ts.add n).sub n = ts) ∧
    (∀ ts : HourTS, ts.validTS → ∀ n : Int,
      hourFloatDeltaUs n = 3600000000 * n →
      hourFloatDeltaUs (-n) = -(3600000000 * n) →
      (ts.add n).sub n = ts) :=
  ⟨fun nS h p h1 h2 n =>
    ⟨fixedNAdd_roundtrip nS n p h h1 h2,
     (fixedNAdd_spec nS n p h).2.1, (fixedNAdd_spec nS n p h).2.2⟩,
   dayTS_roundtrip, hourTS_float_roundtrip⟩

/-- Witness for C3: a `Dekad` (36 steps/year) crossing a year boundary, a `Day`
in a leap year, and an `Hour` stepped by 30 hours — a jump the float pipeline
computes exactly, in both directions. -/
theorem claim_C3_timestep_arithmetic_witness :
    ((1:Int) ≤ 36 ∧ 1 ≤ ((2020, 36) : Int × Int).2 ∧ ((2020, 36) : Int × Int).2 ≤ 36 ∧
      fixedNSub 36 (fixedNAdd 36 ((2020, 36) : Int × Int) 1) 1 = (2020, 36)) ∧
    ((DayTS.mk 2020 60).validTS ∧ ((DayTS.mk 2020 60).add 7).sub 7 = DayTS.mk 2020 60) ∧
    ((HourTS.mk 2021 8760).validTS ∧ hourFloatDeltaUs 30 = 3600000000 * 30 ∧
      ((HourTS.mk 2021 8760).add 30).sub 30 = HourTS.mk 2021 8760) :=
  ⟨⟨by norm_num, by norm_num, by norm_num,
    (claim_C3_timestep_arithmetic.1 36 (by norm_num) (2020, 36) (by norm_num) (by norm_num) 1).1⟩,
   ⟨by decide, claim_C3_timestep_arithmetic.2.1 (DayTS.mk 2020 60) (by decide) 7⟩,
   ⟨by decide, by decide,
    claim_C3_timestep_arithmetic.2.2 (HourTS.mk 2021 8760) (by decide) 30
      (by decide) (by decide)⟩⟩

/-- **C5**: the branch structure of `estimate_timestep`. Fewer than two dates
give `None`; over the sorted sample, a modal day-gap of 0 gives `Hour` exactly
when the modal second-gap is 3600 (`np.isclose` at integer arguments is
equality) and `None` otherwise; 1 gives `Day`; exactly 8 gives `Dekad` when
the last sorted date is February 28 and the 8-day fixed-day-of-year family
otherwise; 9–11 `Dekad`; 30–31 `Month`; 365–366 `Year`; anything else `None`. -/
theorem claim_C5_estimate_timestep (sample : List DateTime) :
    (sample.length < 2 → estimateTimestep sample = none) ∧
    (2 ≤ sample.length →
      (modalDayGap sample = 0 → modalSecondGap sample = 3600 →
        estimateTimestep sample = some TSFamily.hour) ∧
      (modalDayGap sample = 0 → modalSecondGap sample ≠ 3600 →
        estimateTimestep sample = none) ∧
      (modalDayGap sample = 1 → estimateTimestep sample = some TSFamily.day) ∧
      (∀ last, modalDayGap sample = 8 →
        (sortByKey DateTime.absSec sample).getLast? = some last →
        ((last.month = 2 ∧ last.day = 28) → estimateTimestep sample = some TSFamily.dekad) ∧
        (¬(last.month = 2 ∧ last.day = 28) →
          estimateTimestep sample = some TSFamily.viirsModis)) ∧
      (9 ≤ modalDayGap sample ∧ modalDayGap sample ≤ 11 →
        estimateTimestep sample = some TSFamily.dekad) ∧
      (30 ≤ modalDayGap sample ∧ modalDayGap sample ≤ 31 →
        estimateTimestep sample = some TSFamily.month) ∧
      (365 ≤ modalDayGap sample ∧ modalDayGap sample ≤ 366 →
        estimateTimestep sample = some TSFamily.year) ∧
      (¬(modalDayGap sample = 0 ∨ modalDayGap sample = 1 ∨ modalDayGap sample = 8 ∨
          (9 ≤ modalDayGap sample ∧ modalDayGap sample ≤ 11) ∨
          (30 ≤ modalDayGap sample ∧ modalDayGap sample ≤ 31) ∨
          (365 ≤ modalDayGap sample ∧ modalDayGap sample ≤ 366)) →
        estimateTimestep sample = none)) := by
  have hz := npIsClose_zero (modalDayGap sample)
  have ho := npIsClose_one (modalDayGap sample)
  have he := npIsClose_eight (modalDayGap sample)
  have hh := npIsClose_hour (modalSecondGap sample)
  constructor
  · intro h
    unfold estimateTimestep
    rw [if_pos h]
  · intro hlen
    have hnot : ¬ sample.length < 2 := by omega
    refine ⟨?_, ?_, ?_, ?_, ?_, ?_, ?_, ?_⟩
    · intro hg hs
      unfold estimateTimestep
      rw [if_neg hnot, if_pos (hz.mpr hg), if_pos (hh.mpr hs)]
    · intro hg hs
      unfold estimateTimestep
      rw [if_neg hnot, if_pos (hz.mpr hg), if_neg (fun c => hs (hh.mp c))]
    · intro hg
      unfold estimateTimestep
      rw [if_neg hnot, if_neg (fun c => by have := hz.mp c; omega), if_pos (ho.mpr hg)]
    · intro last hg hlast
      unfold estimateTimestep
      rw [if_neg hnot, if_neg (fun c => by have := hz.mp c; omega),
        if_neg (fun c => by have := ho.mp c; omega), if_pos (he.mpr hg), hlast]
      constructor
      · intro hfeb
        show (if last.month = 2 ∧ last.day = 28 then some TSFamily.dekad
          else some TSFamily.viirsModis) = some TSFamily.dekad
        rw [if_pos hfeb]
      · intro hfeb
        show (if last.month = 2 ∧ last.day = 28 then some TSFamily.dekad
          else some TSFamily.viirsModis) = some TSFamily.viirsModis
        rw [if_neg hfeb]
    · intro hg
      unfold estimateTimestep
      rw [if_neg hnot, if_neg (fun c => by have := hz.mp c; omega),
        if_neg (fun c => by have := ho.mp c; omega),
        if_neg (fun c => by have := he.mp c; omega), if_pos hg]
    · intro hg
      unfold estimateTimestep
      rw [if_neg hnot, if_neg (fun c => by have := hz.mp c; omega),
        if_neg (fun c => by have := ho.mp c; omega),
        if_neg (fun c => by have := he.mp c; omega),
        if_neg (show ¬(9 ≤ modalDayGap sample ∧ modalDayGap sample ≤ 11) by omega),
        if_pos hg]
    · intro hg
      unfold estimateTimestep
      rw [if_neg hnot, if_neg (fun c => by have := hz.mp c; omega),
        if_neg (fun c => by have := ho.mp c; omega),
        if_neg (fun c => by have := he.mp c; omega),
        if_neg (show ¬(9 ≤ modalDayGap sample ∧ modalDayGap sample ≤ 11) by omega),
        if_neg (show ¬(30 ≤ modalDayGap sample ∧ modalDayGap sample ≤ 31) by omega),
        if_pos hg]
    · intro hg
      push_neg at hg
      obtain ⟨g0, g1, g8, g911, g3031, g365⟩ := hg
      unfold estimateTimestep
      rw [if_neg hnot, if_neg (fun c => by have := hz.mp c; omega),
        if_neg (fun c => by have := ho.mp c; omega),
        if_neg (fun c => by have := he.mp c; omega),
        if_neg (show ¬(9 ≤ modalDayGap sample ∧ modalDayGap sample ≤ 11) by omega),
        if_neg (show ¬(30 ≤ modalDayGap sample ∧ modalDayGap sample ≤ 31) by omega),
        if_neg (show ¬(365 ≤ modalDayGap sample ∧ modalDayGap sample ≤ 366) by omega)]

/-- Witness for C5: three consecutive days estimate to the `Day` family. -/
theorem claim_C5_estimate_timestep_witness :
    2 ≤ ([⟨2020, 1, 1, 0, 0, 0⟩, ⟨2020, 1, 2, 0, 0, 0⟩,
          ⟨2020, 1, 3, 0, 0, 0⟩] : List DateTime).length ∧
    modalDayGap [⟨2020, 1, 1, 0, 0, 0⟩, ⟨2020, 1, 2, 0, 0, 0⟩, ⟨2020, 1, 3, 0, 0, 0⟩] = 1 ∧
    estimateTimestep [⟨2020, 1, 1, 0, 0, 0⟩, ⟨2020, 1, 2, 0, 0, 0⟩, ⟨2020, 1, 3, 0, 0, 0⟩]
      = some TSFamily.day :=
  ⟨by norm_num, by decide,
   ((claim_C5_estimate_timestep _).2 (by norm_num)).2.2.1 (by decide)⟩

/-- **C10**: `TimePeriod` comparison operators are total boolean functions with
`a < b ⇔ a.end < b.start` and `a > b ⇔ a.start > b.end`; for overlapping but
unequal periods all four of `<`, `>`, `<=`, `>=` return `False` and none of
them raises (each is a plain boolean expression over datetimes). -/
theorem claim_C10_timeperiod_comparisons :
    (∀ a b : TimePeriod, (a.ltP b = true ↔ a.end_.absSec < b.start.absSec) ∧
      (a.gtP b = true ↔ b.end_.absSec < a.start.absSec)) ∧
    (∀ a b : TimePeriod,
      a.start.absSec ≤ b.end_.absSec → b.start.absSec ≤ a.end_.absSec →
      (a.start ≠ b.start ∨ a.end_ ≠ b.end_) →
      a.ltP b = false ∧ a.gtP b = false ∧ a.leP b = false ∧ a.geP b = false) := by
  constructor
  · intro a b
    constructor <;> simp [TimePeriod.ltP, TimePeriod.gtP]
  · intro a b h1 h2 hne
    have heq : a.eqP b = false := by
      rcases hne with hne | hne <;>
        simp [TimePeriod.eqP, hne]
    have hlt : a.ltP b = false := by
      simp only [TimePeriod.ltP, decide_eq_false_iff_not]
      omega
    have hgt : a.gtP b = false := by
      simp only [TimePeriod.gtP, decide_eq_false_iff_not]
      omega
    refine ⟨hlt, hgt, ?_, ?_⟩
    · simp [TimePeriod.leP, hlt, heq]
    · simp [TimePeriod.geP, hgt, heq]

/-- Witness for C10: the overlapping periods (Jan 1 – Jan 3) and
(Jan 2 – Jan 4) of 2020 compare as incomparable. -/
theorem claim_C10_timeperiod_comparisons_witness :
    (TimePeriod.mk ⟨2020, 1, 1, 0, 0, 0⟩ ⟨2020, 1, 3, 0, 0, 0⟩).start.absSec
      ≤ (TimePeriod.mk ⟨2020, 1, 2, 0, 0, 0⟩ ⟨2020, 1, 4, 0, 0, 0⟩).end_.absSec ∧
    (TimePeriod.mk ⟨2020, 1, 2, 0, 0, 0⟩ ⟨2020, 1, 4, 0, 0, 0⟩).start.absSec
      ≤ (TimePeriod.mk ⟨2020, 1, 1, 0, 0, 0⟩ ⟨2020, 1, 3, 0, 0, 0⟩).end_.absSec ∧
    ((TimePeriod.mk ⟨2020, 1, 1, 0, 0, 0⟩ ⟨2020, 1, 3, 0, 0, 0⟩).ltP
        (TimePeriod.mk ⟨2020, 1, 2, 0, 0, 0⟩ ⟨2020, 1, 4, 0, 0, 0⟩) = false ∧
      (TimePeriod.mk ⟨2020, 1, 1, 0, 0, 0⟩ ⟨2020, 1, 3, 0, 0, 0⟩).gtP
        (TimePeriod.mk ⟨2020, 1, 2, 0, 0, 0⟩ ⟨2020, 1, 4, 0, 0, 0⟩) = false ∧
      (TimePeriod.mk ⟨2020, 1, 1, 0, 0, 0⟩ ⟨2020, 1, 3, 0, 0, 0⟩).leP
        (TimePeriod.mk ⟨2020, 1, 2, 0, 0, 0⟩ ⟨2020, 1, 4, 0, 0, 0⟩) = false ∧
      (TimePeriod.mk ⟨2020, 1, 1, 0, 0, 0⟩ ⟨2020, 1, 3, 0, 0, 0⟩).geP
        (TimePeriod.mk ⟨2020, 1, 2, 0, 0, 0⟩ ⟨2020, 1, 4, 0, 0, 0⟩) = false) :=
  ⟨by decide, by decide,
   claim_C10_timeperiod_comparisons.2 _ _ (by decide) (by decide) (by decide)⟩

/-! ### Derived-dataset availability (C4) -/

theorem mem_insertSorted {α : Type} (key : α → Int) (x t : α) (l : List α) :
    t ∈ insertSorted key x l ↔ t = x ∨ t ∈ l := by
  induction l with
  | nil => simp [insertSorted]
  | cons y ys ih =>
      simp only [insertSorted]
      split
      · simp
      · simp only [List.mem_cons, ih]
        tauto

theorem mem_sortByKey {α : Type} (key : α → Int) (t : α) (l : List α) :
    t ∈ sortByKey key l ↔ t ∈ l := by
  induction l with
  | nil => simp [sortByKey]
  | cons y ys ih =>
      simp only [sortByKey, mem_insertSorted, ih, List.mem_cons]

theorem mem_dedupDts (t : DateTime) (l : List DateTime) :
    t ∈ ownTimesIn.dedupDts l ↔ t ∈ l := by
  induction l with
  | nil => simp [ownTimesIn.dedupDts]
  | cons y ys ih =>
      simp only [ownTimesIn.dedupDts, List.mem_cons, List.mem_filter, ih]
      by_cases h : t = y
      · simp [h]
      · simp [h]

theorem mem_ownTimesIn (own : List DateTime) (r : TimePeriod) (t : DateTime) :
    t ∈ ownTimesIn own r ↔ t ∈ own ∧ r.containsDt t = true := by
  simp [ownTimesIn, mem_sortByKey, mem_dedupDts, List.mem_filter]

theorem mem_intersectTimes (l : List DateTime) (ls : List (List DateTime)) (t : DateTime) :
    t ∈ intersectTimes (l :: ls) ↔ t ∈ l ∧ ∀ l' ∈ ls, t ∈ l' := by
  simp [intersectTimes, mem_dedupDts, List.mem_filter, List.all_eq_true, List.elem_iff]

theorem getTimes_eq_def (d : DsT) (r : TimePeriod) :
    getTimes d r = ownTimesIn d.own r ++
      (if d.parents.isEmpty then []
       else
         (intersectTimes (d.parents.map (fun p => getTimes p r))).filter
           (fun t => ¬ (ownTimesIn d.own r).contains t ∧ r.containsDt t)) := by
  rw [getTimes]
  rw [List.attach_map_val d.parents (fun p => getTimes p r)]

theorem getTimes_contains (d : DsT) (r : TimePeriod) (t : DateTime) :
    t ∈ getTimes d r → r.containsDt t = true := by
  rw [getTimes_eq_def]
  intro h
  rcases List.mem_append.mp h with h | h
  · exact ((mem_ownTimesIn _ _ _).mp h).2
  · split at h
    · simp at h
    · have := (List.mem_filter.mp h).2
      simp only [decide_eq_true_eq] at this
      exact this.2

/-- **C4**: with no directly stored instant in the requested range and parents
configured, `get_times` returns exactly the set intersection of the parents'
`get_times`; in particular with `P1 = {2020-01-01, 2020-01-02}` and
`P2 = {2020-01-02, 2020-01-03}` the derived dataset yields exactly
`{2020-01-02}`. -/
theorem claim_C4_derived_intersection :
    (∀ (d : DsT) (r : TimePeriod), ownTimesIn d.own r = [] → d.parents ≠ [] →
      ∀ t : DateTime, t ∈ getTimes d r ↔ ∀ p ∈ d.parents, t ∈ getTimes p r) ∧
    getTimes
      (DsT.mk []
        [DsT.mk [⟨2020, 1, 1, 0, 0, 0⟩, ⟨2020, 1, 2, 0, 0, 0⟩] [],
         DsT.mk [⟨2020, 1, 2, 0, 0, 0⟩, ⟨2020, 1, 3, 0, 0, 0⟩] []])
      (TimePeriod.mk ⟨2020, 1, 1, 0, 0, 0⟩ ⟨2020, 1, 3, 0, 0, 0⟩)
      = [⟨2020, 1, 2, 0, 0, 0⟩] := by
  constructor
  · intro d r hown hpar t
    obtain ⟨own, ps⟩ := d
    simp only [DsT.own, DsT.parents] at hown hpar ⊢
    rw [getTimes_eq_def]
    simp only [DsT.own, DsT.parents]
    simp only [hown]
    cases ps with
    | nil => exact absurd rfl hpar
    | cons p0 rest =>
        simp only [List.isEmpty_cons, Bool.false_eq_true, if_false, List.nil_append,
          List.map_cons, List.mem_filter, mem_intersectTimes]
        constructor
        · rintro ⟨⟨h0, hrest⟩, _⟩
          intro p hp
          rcases List.mem_cons.mp hp with rfl | hp2
          · exact h0
          · exact hrest _ (List.mem_map_of_mem _ hp2)
        · intro hall
          have h0 : t ∈ getTimes p0 r := hall p0 (by simp)
          refine ⟨⟨h0, ?_⟩, ?_⟩
          · rintro l2 hl2
            obtain ⟨p, hp, rfl⟩ := List.mem_map.mp hl2
            exact hall p (by simp [hp])
          · have hc := getTimes_contains p0 r t h0
            simp [hc]
  · rw [getTimes_eq_def]
    have hP1 : getTimes (DsT.mk [⟨2020, 1, 1, 0, 0, 0⟩, ⟨2020, 1, 2, 0, 0, 0⟩] [])
        (TimePeriod.mk ⟨2020, 1, 1, 0, 0, 0⟩ ⟨2020, 1, 3, 0, 0, 0⟩)
        = ownTimesIn [⟨2020, 1, 1, 0, 0, 0⟩, ⟨2020, 1, 2, 0, 0, 0⟩]
            (TimePeriod.mk ⟨2020, 1, 1, 0, 0, 0⟩ ⟨2020, 1, 3, 0, 0, 0⟩) := by
      rw [getTimes_eq_def]
      simp [DsT.own, DsT.parents]
    have hP2 : getTimes (DsT.mk [⟨2020, 1, 2, 0, 0, 0⟩, ⟨2020, 1, 3, 0, 0, 0⟩] [])
        (TimePeriod.mk ⟨2020, 1, 1, 0, 0, 0⟩ ⟨2020, 1, 3, 0, 0, 0⟩)
        = ownTimesIn [⟨2020, 1, 2, 0, 0, 0⟩, ⟨2020, 1, 3, 0, 0, 0⟩]
            (TimePeriod.mk ⟨2020, 1, 1, 0, 0, 0⟩ ⟨2020, 1, 3, 0, 0, 0⟩) := by
      rw [getTimes_eq_def]
      simp [DsT.own, DsT.parents]
    simp only [DsT.own, DsT.parents, List.map_cons, List.map_nil, hP1, hP2]
    decide

/-! ## Claim C9: the remote key memo under writes and removes -/

/-- C9: the spec says that once the key memo is cached, writes and removes
both patch it in place so that it stays equal to the backend's keys.  The
write path does append the missing key, but the remove path calls
`list.pop` with the string key itself (`self.available_keys.pop(key)`), and
CPython's `list.pop` only accepts an integer index: removing a key that is
in the memo raises `TypeError`, so the memo is never patched on removal. -/
theorem claim_C9_memo_patch :
    writeMemoPatch [] "/data/a.tif" = ["/data/a.tif"] ∧
    writeMemoPatch ["/data/a.tif"] "/data/a.tif" = ["/data/a.tif"] ∧
    rmMemoPatch ["/data/a.tif"] "/data/a.tif"
      = .error "TypeError: 'str' object cannot be interpreted as an integer" := by
  refine ⟨by decide, by decide, rfl⟩

/-! ## Claim C7: list-valued tags fork the substitution -/

/-- One step of `generate_strings` when the string has no tag token left. -/
theorem generateStrings_none (tags : List (String × PyVal)) (cs : List Char)
    (hf : findTok cs = none) : generateStrings tags cs = .s (String.mk cs) := by
  rw [generateStrings, hf]

/-- One step of `re.sub` at a token. -/
theorem subAll_step (tags : List (String × PyVal)) (cs pre : List Char) (name : String)
    (fmt : Option String) (r : {r : List Char // r.length < cs.length})
    (hf : findTok cs = some (pre, name, fmt, r)) :
    subAll tags cs = pre ++ (replaceMatch name fmt tags).data ++ subAll tags r.1 := by
  rw [subAll, hf]

/-- `re.sub` on a token-free string. -/
theorem subAll_none (tags : List (String × PyVal)) (cs : List Char)
    (hf : findTok cs = none) : subAll tags cs = cs := by
  rw [subAll, hf]

/-- One step of `generate_strings` when the first token's value is not a
list: every token is substituted in one `re.sub` pass. -/
theorem generateStrings_nofork (tags : List (String × PyVal)) (cs pre : List Char)
    (name : String) (fmt : Option String) (r : {r : List Char // r.length < cs.length})
    (hf : findTok cs = some (pre, name, fmt, r))
    (hl : ∀ vs, lookupTag tags name ≠ some (.vlist vs)) :
    generateStrings tags cs
      = .s (String.mk (pre ++ (replaceMatch name fmt tags).data ++ subAll tags r.1)) := by
  rw [generateStrings, hf]
  split
  · next heq => exact Option.noConfusion heq
  · next pre' name' fmt' r' heq =>
      injection heq with h
      simp only [Prod.mk.injEq] at h
      obtain ⟨rfl, rfl, rfl, rfl⟩ := h
      split
      · next vs' heq2 => exact absurd heq2 (hl vs')
      · rfl

/-- One step of `generate_strings` when the first token's value is a list:
the substitution forks, one independent continuation per element, with the
element rebound to the tag name. -/
theorem generateStrings_fork (tags : List (String × PyVal)) (cs pre : List Char)
    (name : String) (fmt : Option String) (r : {r : List Char // r.length < cs.length})
    (vs : List PyVal)
    (hf : findTok cs = some (pre, name, fmt, r))
    (hl : lookupTag tags name = some (.vlist vs)) :
    generateStrings tags cs
      = .l (vs.map (fun v =>
          generateStrings (updateFirst tags name v)
            (pre ++ (replaceMatch name fmt (updateFirst tags name v)).data ++ r.1))) := by
  rw [generateStrings, hf]
  split
  · next heq => exact Option.noConfusion heq
  · next pre' name' fmt' r' heq =>
      injection heq with h
      simp only [Prod.mk.injEq] at h
      obtain ⟨rfl, rfl, rfl, rfl⟩ := h
      split
      · next vs' heq2 =>
          rw [hl] at heq2
          injection heq2 with h2
          injection h2 with h3
          subst h3
          exact congrArg PyStrs.l (List.attach_map_val vs
            (fun v => generateStrings (updateFirst tags name v)
              (pre ++ (replaceMatch name fmt (updateFirst tags name v)).data ++ r.1)))
      · next h => exact absurd hl (h vs)

/-- C7 counterexample: the claim quantifies over EVERY string containing a
tag token with a list-valued binding, but `generate_strings` only forks on
the FIRST token of the string.  In `"{a}{x}"` with `a ↦ "u"` and
`x ↦ ["a", "b"]` the first token's value is a plain string, so the whole
substitution takes the `re.sub` path and the list value is rendered by
`str(...)` into the single string `"u['a', 'b']"` — no fork. -/
theorem claim_C7_counterexample :
    substituteString "{a}{x}"
      [("a", PyVal.vstr "u"), ("x", PyVal.vlist [PyVal.vstr "a", PyVal.vstr "b"])]
      = .s "u['a', 'b']" := by
  simp only [substituteString]
  rw [generateStrings_nofork _ _ [] "a" none ⟨"{x}".data, by decide⟩ (by decide)
    (by intro vs h; simp [lookupTag] at h)]
  rw [subAll_step _ _ [] "x" none ⟨[], by decide⟩ (by decide)]
  rw [subAll_none _ _ (by decide)]
  simp only [PyStrs.s.injEq]
  decide

/-- C7 (corrected): `generate_strings` forks exactly when the FIRST tag
token of the string has a list-valued binding — one independent continuation
per element, with that element rebound to the tag name (later tokens do not
fork; their list values are rendered by `str`).  In particular substituting
`x ↦ ["a", "b"]` into `"{x}"` yields the list `["a", "b"]`. -/
theorem claim_C7_list_fork :
    (∀ (tags : List (String × PyVal)) (cs pre : List Char) (name : String)
        (fmt : Option String) (r : {r : List Char // r.length < cs.length})
        (vs : List PyVal),
        findTok cs = some (pre, name, fmt, r) →
        lookupTag tags name = some (.vlist vs) →
        generateStrings tags cs
          = .l (vs.map (fun v =>
              generateStrings (updateFirst tags name v)
                (pre ++ (replaceMatch name fmt (updateFirst tags name v)).data ++ r.1)))) ∧
    substituteString "{x}" [("x", PyVal.vlist [PyVal.vstr "a", PyVal.vstr "b"])]
      = .l [.s "a", .s "b"] := by
  refine ⟨generateStrings_fork, ?_⟩
  simp only [substituteString]
  rw [generateStrings_fork [("x", PyVal.vlist [PyVal.vstr "a", PyVal.vstr "b"])]
    "\x7bx\x7d".data [] "x" none ⟨[], by decide⟩
    [PyVal.vstr "a", PyVal.vstr "b"] (by decide) rfl]
  simp only [List.map_cons, List.map_nil]
  rw [generateStrings_none _ _ (by decide), generateStrings_none _ _ (by decide)]
  simp only [PyStrs.l.injEq, List.cons.injEq, PyStrs.s.injEq, and_true]
  exact ⟨by decide, by decide⟩

/-- C7 witness: the fork rule applied at `"{x}"` with `x ↦ ["a"]`. -/
theorem claim_C7_list_fork_witness :
    generateStrings [("x", PyVal.vlist [PyVal.vstr "a"])] "{x}".data
      = .l ([PyVal.vstr "a"].map (fun v =>
          generateStrings (updateFirst [("x", PyVal.vlist [PyVal.vstr "a"])] "x" v)
            ([] ++ (replaceMatch "x" none
                (updateFirst [("x", PyVal.vlist [PyVal.vstr "a"])] "x" v)).data
              ++ ([] : List Char)))) :=
  claim_C7_list_fork.1 _ "{x}".data [] "x" none ⟨[], by decide⟩ _ (by decide) rfl

/-! ## Claim C1: `get_key` and the time-signature zeroing cascade -/

/-- For the pattern `"/data/%Y/%m/file_\x7bregion\x7d.csv"`, the cascade
zeroes seconds, minutes, hours and the day (stopping at the present `%m`),
whatever the requested instant and step length. -/
theorem squashTime_c1_pattern (t : DateTime) (l : Option Int) :
    squashTime "/data/%Y/%m/file_\x7bregion\x7d.csv" t l
      = ⟨t.year, t.month, 1, 0, 0, 0⟩ := by
  obtain ⟨y, mo, d, h, mi, sec⟩ := t
  have hkey : removeTags "/data/%Y/%m/file_\x7bregion\x7d.csv".data
      = "/data/%Y/%m/file_.csv".data := by
    simp [removeTags, splitCloseBrace]
  simp only [squashTime, hkey]
  simp [show containsSub "/data/%Y/%m/file_.csv".data ['%', 'Y'] = true from by decide,
    show containsSub "/data/%Y/%m/file_.csv".data ['%', 's'] = false from by decide,
    show containsSub "/data/%Y/%m/file_.csv".data ['%', 'M'] = false from by decide,
    show containsSub "/data/%Y/%m/file_.csv".data ['%', 'H'] = false from by decide,
    show containsSub "/data/%Y/%m/file_.csv".data ['%', 'd'] = false from by decide,
    show containsSub "/data/%Y/%m/file_.csv".data ['%', 'm'] = true from by decide]

/-- C1 counterexample: the claim says every field whose code is absent from
the pattern is zeroed (seconds, minutes, hours, day, month, in that order);
the source STOPS the cascade at the first code that IS present.  With
pattern `"/data/%Y/file_%H.csv"` (no `%d`), the requested day 15 survives
because `%H` is present and the day test is never reached; and the seconds
test looks for the lowercase `'%s'`, so a pattern carrying `%S` still has
its seconds zeroed. -/
theorem claim_C1_counterexample :
    squashTime "/data/%Y/file_%H.csv" ⟨2021, 7, 15, 5, 30, 0⟩ none
      = ⟨2021, 7, 15, 5, 0, 0⟩ ∧
    squashTime "/data/%Y%m%d_%H%M%S.csv" ⟨2021, 7, 15, 5, 30, 45⟩ none
      = ⟨2021, 7, 15, 5, 30, 0⟩ := by
  constructor
  · have hkey : removeTags "/data/%Y/file_%H.csv".data = "/data/%Y/file_%H.csv".data := by
      simp [removeTags]
    simp only [squashTime, hkey]
    decide
  · have hkey : removeTags "/data/%Y%m%d_%H%M%S.csv".data
        = "/data/%Y%m%d_%H%M%S.csv".data := by
      simp [removeTags]
    simp only [squashTime, hkey]
    decide

/-- C1 (corrected): for the pattern `"/data/%Y/%m/file_\x7bregion\x7d.csv"`
the concrete scenario of the claim does hold — the signature zeroes the
fields below `%m` (the cascade stops at the first present code, so here
every absent field happens to be zeroed), `get_key` at 2021-07-15 gives
`"/data/2021/07/file_east.csv"`, any two instants with equal year and month
give the same key, and re-extraction returns 2021-07-01 with the tag. -/
theorem claim_C1_key_roundtrip :
    (∀ (t : DateTime) (l : Option Int),
        squashTime "/data/%Y/%m/file_\x7bregion\x7d.csv" t l
          = ⟨t.year, t.month, 1, 0, 0, 0⟩) ∧
    getKeyInstant "/data/%Y/%m/file_\x7bregion\x7d.csv" (some ⟨2021, 7, 15, 0, 0, 0⟩)
      none [("region", PyVal.vstr "east")] = .ok (.s "/data/2021/07/file_east.csv") ∧
    extractDateAndTags "/data/2021/07/file_east.csv" "/data/%Y/%m/file_\x7bregion\x7d.csv"
      = .ok (⟨2021, 7, 1, 0, 0, 0⟩, [("region", "east")]) := by
  refine ⟨squashTime_c1_pattern, ?_, ?_⟩
  · have hsub : substituteString "/data/%Y/%m/file_\x7bregion\x7d.csv"
        [("region", PyVal.vstr "east")] = .s "/data/%Y/%m/file_east.csv" := by
      simp only [substituteString]
      rw [generateStrings_nofork [("region", PyVal.vstr "east")] _
        "/data/%Y/%m/file_".data "region" none ⟨".csv".data, by decide⟩ (by decide)
        (by intro vs h; simp [lookupTag] at h)]
      rw [subAll_none _ _ (by decide)]
      simp only [PyStrs.s.injEq]
      decide
    simp only [getKeyInstant, hsub, squashTime_c1_pattern]
    simp only [Except.ok.injEq, PyStrs.s.injEq]
    decide
  · have hcomp : compilePat "/data/%Y/%m/file_\x7bregion\x7d.csv".data
        = [.lit '/', .lit 'd', .lit 'a', .lit 't', .lit 'a', .lit '/', .dateCap .fy,
           .lit '/', .dateCap .fm, .lit '/', .lit 'f', .lit 'i', .lit 'l', .lit 'e',
           .lit '_', .tagCap "region", .dot, .lit 'c', .lit 's', .lit 'v'] := by
      simp [compilePat, parseBraceTag, parseBraceTag.parseBraceTagTail, isTagChar]
    simp only [extractDateAndTags, hcomp]
    rfl

/-! ## Claim C6: the Feb-29 rollback for yearless patterns -/

/-- C6: for the yearless pattern `"/params/param_%m%d.tif"`, an instant on
February 29 with a step length over one day is rolled back to February 28
(the cascade then zeroes the time of day and stops at the present `%d`);
in particular `get_key` with an `end` time signature on the Dekad
2024-02-21 .. 2024-02-29 (length 9 days) resolves to
`"/params/param_0228.tif"`. -/
theorem claim_C6_feb29_rollback :
    (∀ (t : DateTime) (l : Int), t.month = 2 → t.day = 29 → 1 < l →
        squashTime "/params/param_%m%d.tif" t (some l)
          = ⟨t.year, 2, 28, 0, 0, 0⟩) ∧
    getKeyTS "/params/param_%m%d.tif" .end_ (dekadStart 2024 6) (dekadEnd 2024 6)
      (dekadStart 2024 7) [] = .ok (.s "/params/param_0228.tif") := by
  have hkey : removeTags "/params/param_%m%d.tif".data = "/params/param_%m%d.tif".data := by
    simp [removeTags, splitCloseBrace]
  have hgen : ∀ (t : DateTime) (l : Int), t.month = 2 → t.day = 29 → 1 < l →
      squashTime "/params/param_%m%d.tif" t (some l) = ⟨t.year, 2, 28, 0, 0, 0⟩ := by
    intro t l hm hd hl
    obtain ⟨y, mo, d, h, mi, sec⟩ := t
    simp only at hm hd
    subst hm hd
    simp only [squashTime, hkey]
    simp [show containsSub "/params/param_%m%d.tif".data ['%', 'Y'] = false from by decide,
      show containsSub "/params/param_%m%d.tif".data ['%', 's'] = false from by decide,
      show containsSub "/params/param_%m%d.tif".data ['%', 'M'] = false from by decide,
      show containsSub "/params/param_%m%d.tif".data ['%', 'H'] = false from by decide,
      show containsSub "/params/param_%m%d.tif".data ['%', 'd'] = true from by decide,
      hl]
  refine ⟨hgen, ?_⟩
  have hsub : substituteString "/params/param_%m%d.tif" [] = .s "/params/param_%m%d.tif" := by
    simp only [substituteString]
    exact generateStrings_none _ _ (by decide)
  simp only [getKeyTS, hsub, getTimeSignatureTS]
  have hdk : dekadEnd 2024 6 = ⟨2024, 2, 29, 0, 0, 0⟩ := by
    have h1 : dekadEnd 2024 6 = DateTime.addSeconds ⟨2024, 3, 1, 0, 0, 0⟩ (-86400) := by
      simp only [dekadEnd]
      norm_num
    rw [h1, addSeconds_eq]
    have e : 86400 * ((⟨2024, 3, 1, 0, 0, 0⟩ : DateTime).doy - 1)
        + (⟨2024, 3, 1, 0, 0, 0⟩ : DateTime).secOfDay + (-86400) = 86400 * 59 := by decide
    rw [e, yearNorm_id (by decide) (by decide)]
    decide
  rw [hdk]
  rw [hgen ⟨2024, 2, 29, 0, 0, 0⟩ (periodLengthDays (dekadStart 2024 6) ⟨2024, 2, 29, 0, 0, 0⟩)
    rfl rfl (by decide)]
  simp only [Except.ok.injEq, PyStrs.s.injEq]
  decide

/-- C6 witness: the rollback rule applied to the concrete instant
2024-02-29 with a nine-day step. -/
theorem claim_C6_feb29_rollback_witness :
    squashTime "/params/param_%m%d.tif" ⟨2024, 2, 29, 5, 6, 7⟩ (some 9)
      = ⟨2024, 2, 28, 0, 0, 0⟩ :=
  claim_C6_feb29_rollback.1 ⟨2024, 2, 29, 5, 6, 7⟩ 9 rfl rfl (by decide)

/-! ## Claim C8: discovery returns empty, point access raises -/

/-- `get_available_keys` over a (single-month) range, as one expression:
empty at once when the prefix check fails, else the filtered walk. -/
theorem gak_range_eq (b : Backend) (pattern : String) (tags : List (String × PyVal))
    (r : TimePeriod) (lh : Option Int) (raw : String)
    (hsub : substituteString pattern tags = .s raw) :
    getAvailableKeysCore b pattern tags (.range r) lh
      = if b.check (getPrefixRange raw r) = false then .ok []
        else .ok ((b.walk (getPrefixRange raw r)).filter (fun f =>
            match extractDateAndTags f raw with
            | .ok (d, _) => r.containsDt d || !(hasTimePat pattern)
            | .error _ => false)) := by
  simp only [getAvailableKeysCore, hsub]
  rfl

/-- `get_data` raises when the key is absent and no parents are configured. -/
theorem getData_error_eq (b : Backend) (pattern : String) (time : Option DateTime)
    (length : Option Int) (tags : List (String × PyVal)) (k : String)
    (hkey : getKeyInstant pattern time length tags = .ok (.s k))
    (hcheck : b.check k = false) :
    getData b pattern time length tags false false
      = .error ("Could not resolve data from " ++ k ++ ".") := by
  simp only [getData, hkey, hcheck]
  simp

/-- C8 counterexample: the claim says a candidate key whose extracted
instant lies outside the requested range is always skipped.  For a pattern
with no `%` code (`has_time` false) the source KEEPS such keys: here the
walked key extracts to the `strptime` default 1900-01-01, far outside the
requested January 2020 range, yet `get_available_keys` returns it. -/
theorem claim_C8_counterexample :
    extractDateAndTags "/data/file.csv" "/data/file.csv"
      = .ok (⟨1900, 1, 1, 0, 0, 0⟩, []) ∧
    TimePeriod.containsDt ⟨⟨2020, 1, 1, 0, 0, 0⟩, ⟨2020, 1, 31, 0, 0, 0⟩⟩
      ⟨1900, 1, 1, 0, 0, 0⟩ = false ∧
    getAvailableKeysCore
      ⟨fun p => p == "/data", fun p => if p == "/data" then ["/data/file.csv"] else []⟩
      "/data/file.csv" [] (.range ⟨⟨2020, 1, 1, 0, 0, 0⟩, ⟨2020, 1, 31, 0, 0, 0⟩⟩) none
      = .ok ["/data/file.csv"] := by
  have hcomp : compilePat "/data/file.csv".data
      = [.lit '/', .lit 'd', .lit 'a', .lit 't', .lit 'a', .lit '/', .lit 'f', .lit 'i',
         .lit 'l', .lit 'e', .dot, .lit 'c', .lit 's', .lit 'v'] := by
    simp [compilePat, parseBraceTag, parseBraceTag.parseBraceTagTail, isTagChar]
  have hext : extractDateAndTags "/data/file.csv" "/data/file.csv"
      = .ok (⟨1900, 1, 1, 0, 0, 0⟩, []) := by
    simp only [extractDateAndTags, hcomp]
    rfl
  refine ⟨hext, by decide, ?_⟩
  have hsub : substituteString "/data/file.csv" [] = .s "/data/file.csv" := by
    simp only [substituteString]
    exact generateStrings_none _ _ (by decide)
  rw [gak_range_eq _ _ _ _ _ _ hsub]
  have hpfx : getPrefixRange "/data/file.csv" ⟨⟨2020, 1, 1, 0, 0, 0⟩, ⟨2020, 1, 31, 0, 0, 0⟩⟩
      = "/data" := by
    simp only [getPrefixRange]
    norm_num
    have e1 : replaceAllSub ['/', 'd', 'a', 't', 'a', '/', 'f', 'i', 'l', 'e', '.', 'c', 's', 'v']
        ['%', 'Y'] (toString (2020 : Int)).data
        = ['/', 'd', 'a', 't', 'a', '/', 'f', 'i', 'l', 'e', '.', 'c', 's', 'v'] := by
      simp [replaceAllSub, listIsPrefix]
    have e2 : replaceAllSub ['/', 'd', 'a', 't', 'a', '/', 'f', 'i', 'l', 'e', '.', 'c', 's', 'v']
        ['%', 'm'] (pad2 (1 : Int)).data
        = ['/', 'd', 'a', 't', 'a', '/', 'f', 'i', 'l', 'e', '.', 'c', 's', 'v'] := by
      simp [replaceAllSub, listIsPrefix]
    rw [e1, e2]
    have hdir :
        dirname ({ data := ['/', 'd', 'a', 't', 'a', '/', 'f', 'i', 'l', 'e', '.', 'c', 's', 'v'] } : String)
        = "/data" := by decide
    rw [hdir, cleanPrefix]
    norm_num
    intro h
    exact absurd h (by decide)
  rw [hpfx]
  simp [hext, hasTimePat]

/-- C8 (corrected): over a range, `get_available_keys` never raises — it
returns `[]` at once when the backend check of the search prefix fails, and
every key it returns comes from the walk, parses against the substituted
pattern and is in range OR the pattern carries no time code at all (the
out-of-range skip only applies when the pattern references time); `get_data`
with no parents raises `Could not resolve data from ...` when the resolved
key is absent from the backend. -/
theorem claim_C8_discovery_vs_point :
    (∀ (b : Backend) (pattern : String) (tags : List (String × PyVal)) (r : TimePeriod)
        (lh : Option Int) (raw : String),
        substituteString pattern tags = .s raw →
        ∃ keys, getAvailableKeysCore b pattern tags (.range r) lh = .ok keys ∧
          (b.check (getPrefixRange raw r) = false → keys = []) ∧
          (∀ k ∈ keys, k ∈ b.walk (getPrefixRange raw r) ∧
            ∃ d tg, extractDateAndTags k raw = .ok (d, tg) ∧
              (r.containsDt d = true ∨ hasTimePat pattern = false))) ∧
    (∀ (b : Backend) (pattern : String) (time : Option DateTime) (length : Option Int)
        (tags : List (String × PyVal)) (k : String),
        getKeyInstant pattern time length tags = .ok (.s k) →
        b.check k = false →
        getData b pattern time length tags false false
          = .error ("Could not resolve data from " ++ k ++ ".")) := by
  constructor
  · intro b pattern tags r lh raw hsub
    rw [gak_range_eq b pattern tags r lh raw hsub]
    by_cases hc : b.check (getPrefixRange raw r) = false
    · rw [if_pos hc]
      exact ⟨[], rfl, fun _ => rfl, by simp⟩
    · rw [if_neg hc]
      refine ⟨_, rfl, fun h => absurd h hc, ?_⟩
      intro k hk
      rw [List.mem_filter] at hk
      refine ⟨hk.1, ?_⟩
      have hk2 := hk.2
      rcases hext : extractDateAndTags k raw with e | ⟨d, tg⟩
      · rw [hext] at hk2
        exact absurd hk2 (by simp)
      · rw [hext] at hk2
        refine ⟨d, tg, rfl, ?_⟩
        simp only [Bool.or_eq_true, Bool.not_eq_eq_eq_not, Bool.not_true] at hk2
        rcases hk2 with h | h
        · exact Or.inl h
        · exact Or.inr (by simpa using h)
  · intro b pattern time length tags k hkey hcheck
    exact getData_error_eq b pattern time length tags k hkey hcheck

/-- C8 witness: a backend that stores nothing makes `get_data` raise for a
resolved key. -/
theorem claim_C8_discovery_vs_point_witness :
    getData ⟨fun _ => false, fun _ => []⟩ "/x/file.csv" none none [] false false
      = .error ("Could not resolve data from " ++ "/x/file.csv" ++ ".") :=
  claim_C8_discovery_vs_point.2 ⟨fun _ => false, fun _ => []⟩ "/x/file.csv" none none []
    "/x/file.csv"
    (by simp only [getKeyInstant]
        rw [show substituteString "/x/file.csv" [] = .s "/x/file.csv" from by
          simp only [substituteString]; exact generateStrings_none _ _ (by decide)])
    rfl

/-! ## Claim C2: the pattern round-trip -/

end D3
